import Mathlib

/-!
# xk6-sse: the Server-Sent-Events client of `sse.go`

A shallow embedding of the event stream parser (`readEvents`, `hasPrefix`,
`stripPrefix`, `isLineEnd`) and of the session (`Client`, `On`, `Close`,
`handleEvent`, `closeResponseBody`, `Open`), with the properties proved about them.

Go byte slices and the strings built from them are lists of byte values
(`Nat`); the parser only compares bytes with ASCII constants, so nothing in it
depends on a byte being below 256.
-/

namespace SSE

/-- A Go `[]byte`, or the bytes of a Go `string`. -/
abbrev Bytes := List Nat

/-- The bytes of an ASCII string literal of the source. -/
def ascii (s : String) : Bytes := s.toList.map Char.toNat

/-- The byte `'\n'`. -/
def LF : Nat := 10

/-- The byte `'\r'`. -/
def CR : Nat := 13

/-- The byte `' '`. -/
def SP : Nat := 32

/-- Go `error` values, as far as this package makes, receives or tests them. -/
inductive GoError where
  /-- `io.EOF` -/
  | eof
  /-- any other error handed back by a reader, or returned by a JS call -/
  | other (msg : Bytes)
  /-- the value `errors.New(msg)` -/
  | errorString (msg : Bytes)
  /-- `&url.Error{Op: op, URL: url, Err: err}` -/
  | urlError (op url : Bytes) (err : GoError)
  deriving DecidableEq, Repr

/-- `errors.Is(err, io.EOF)`; a `*url.Error` unwraps to its `Err`. -/
def GoError.isEOF : GoError → Bool
  | .eof => true
  | .urlError _ _ err => err.isEOF
  | _ => false

/-- The `%q` of `fmt` on a string of printable ASCII characters other than the
double quote and the backslash: the string between double quotes. -/
def quoteASCII (s : Bytes) : Bytes := [34] ++ s ++ [34]

/-- `err.Error()`; for a `*url.Error` it is
`fmt.Sprintf("%s %q: %s", e.Op, e.URL, e.Err)`. -/
def GoError.Error : GoError → Bytes
  | .eof => ascii "EOF"
  | .other msg => msg
  | .errorString msg => msg
  | .urlError op url err => op ++ [32] ++ quoteASCII url ++ [58, 32] ++ err.Error

/-- `errors.New(msg)`. -/
def errorsNew (msg : Bytes) : GoError := .errorString msg

/-- Event represents a Server-Sent Event. -/
structure Event where
  ID : Bytes := []
  Comment : Bytes := []
  Name : Bytes := []
  Data : Bytes := []
  deriving DecidableEq, Repr

/-- How a Go operation of the parser can fail to return. -/
inductive Fault where
  /-- a slice expression with bounds out of range (a run-time panic) -/
  | sliceBounds
  /-- the model's loop bound was reached (never the case for `readEvents`, see
  `readEventsFrom_line` and `readEventsFrom_tail`) -/
  | fuel
  deriving DecidableEq, Repr

/-- What `readEvents` sends, tagged with the channel it is sent on. -/
inductive Item where
  /-- `readChan <- ev` -/
  | event (ev : Event)
  /-- `errorChan <- err` -/
  | error (err : GoError)
  /-- `closeChan <- code` -/
  | close (code : Int)
  deriving DecidableEq, Repr

/-- `bytes.HasPrefix(s, []byte(p))`. -/
def hasPrefix (s : Bytes) (p : String) : Bool := (ascii p).isPrefixOf s

/-- The slice expression `line[lo:hi]`, which panics unless `lo ≤ hi ≤ len(line)`
(`hi` is a Go `int` and may be negative). -/
def slice (line : Bytes) (lo : Nat) (hi : Int) : Except Fault Bytes :=
  if (lo : Int) ≤ hi ∧ hi ≤ (line.length : Int) then
    .ok ((line.take hi.toNat).drop lo)
  else .error .sliceBounds

/-- `string(line[start : len(line)-1])`. -/
def stripPrefix (line : Bytes) (start : Nat) : Except Fault Bytes :=
  slice line start ((line.length : Int) - 1)

/-- The slice expression `line[lo:]`. -/
def sliceFrom (line : Bytes) (lo : Nat) : Except Fault Bytes :=
  slice line lo line.length

/-- `bytes.Equal(line, []byte("\n")) || bytes.Equal(line, []byte("\r\n"))`. -/
def isLineEnd (line : Bytes) : Bool := line == [LF] || line == [CR, LF]

/-- `strings.TrimRightFunc(s, func(r rune) bool { return r == '\r' || r == '\n' })`.
Both runes are ASCII, and no byte of a multi-byte UTF-8 sequence is ASCII, so the
runes trimmed are exactly the trailing bytes equal to `'\r'` or `'\n'`. -/
def trimRight (s : Bytes) : Bytes :=
  (s.reverse.dropWhile fun b => b == CR || b == LF).reverse

/-- `reader.ReadBytes(delim)` on the bytes still to come: the line read (up to
and including the first `delim`) and, when a `delim` was found, the bytes left
for the next read; `none` when the input ended first, in which case `ReadBytes`
returns the error that ended it. -/
def readBytes (delim : Nat) : Bytes → Bytes × Option Bytes
  | [] => ([], none)
  | b :: bs =>
    if b = delim then ([b], some bs)
    else ((b :: (readBytes delim bs).1), (readBytes delim bs).2)

/-- The accumulator of `readEvents`: the pending event `ev` and the data buffer `buf`. -/
structure Pending where
  ev : Event := {}
  buf : Bytes := []
  deriving DecidableEq, Repr

/-- The `switch` of `readEvents` on one line that was read without error: the
next accumulator and the items sent. -/
def processLine (st : Pending) (line : Bytes) : Except Fault (Pending × List Item) :=
  -- id of event
  if hasPrefix line "id: " then
    (stripPrefix line 4).map fun v => ({ st with ev := { st.ev with ID := v } }, [])
  else if hasPrefix line "id:" then
    (stripPrefix line 3).map fun v => ({ st with ev := { st.ev with ID := v } }, [])
  -- Comment
  else if hasPrefix line ": " then
    (stripPrefix line 2).map fun v => ({ st with ev := { st.ev with Comment := v } }, [])
  else if hasPrefix line ":" then
    (stripPrefix line 1).map fun v => ({ st with ev := { st.ev with Comment := v } }, [])
  -- name of event
  else if hasPrefix line "event: " then
    (stripPrefix line 7).map fun v => ({ st with ev := { st.ev with Name := v } }, [])
  else if hasPrefix line "event:" then
    (stripPrefix line 6).map fun v => ({ st with ev := { st.ev with Name := v } }, [])
  -- event data
  else if hasPrefix line "data: " then
    (sliceFrom line 6).map fun d => ({ st with buf := st.buf ++ d }, [])
  else if hasPrefix line "data:" then
    (sliceFrom line 5).map fun d => ({ st with buf := st.buf ++ d }, [])
  else if hasPrefix line "retry:" then
    -- Retry, do nothing for now
    .ok (st, [])
  -- end of event
  else if isLineEnd line then
    -- Trailing newlines are removed.
    .ok ({}, [Item.event { st.ev with Data := trimRight st.buf }])
  else
    .ok (st, [Item.error (errorsNew (ascii "unknown event: " ++ line))])

/-- The item that ends `readEvents` when `ReadBytes` returns the error `err`. -/
def terminal (err : GoError) : Item :=
  if err.isEOF then .close (-1) else .error err

/-- The `for` loop of `readEvents` from the accumulator `st`, on a body that
delivers the bytes `input` and then fails every read with `err` (`io.EOF` at a
clean end). The result lists what is sent, in order, in the run in which every
send is received (`c.done` is not closed while the parser runs). `fuel` bounds
the number of iterations. -/
def readEventsLoop : Nat → Pending → Bytes → GoError → Except Fault (List Item)
  | 0, _, _, _ => .error .fuel
  | fuel + 1, st, input, err =>
    match readBytes LF input with
    | (_, none) => .ok [terminal err]
    | (line, some rest) =>
      match processLine st line with
      | .error f => .error f
      | .ok (st1, items) =>
        match readEventsLoop fuel st1 rest err with
        | .error f => .error f
        | .ok more => .ok (items ++ more)

/-- The loop of `readEvents` started from the accumulator `st`: every iteration
consumes at least one byte, so `input.length + 1` iterations are enough. -/
def readEventsFrom (st : Pending) (input : Bytes) (err : GoError) : Except Fault (List Item) :=
  readEventsLoop (input.length + 1) st input err

/-- `readEvents`: the loop started with `ev := Event{}` and an empty buffer. -/
def readEvents (input : Bytes) (err : GoError) : Except Fault (List Item) :=
  readEventsFrom {} input err

/-! ### Inputs made of complete lines -/

/-- The input made of the lines with contents `ls`, each closed by `'\n'`. -/
def joinLines : List Bytes → Bytes
  | [] => []
  | l :: ls => l ++ LF :: joinLines ls

/-- What the `switch` of `readEvents` does on the complete line `l ++ "\n"`,
in terms of the line's content `l` (see `processLine_line`). -/
def stepLine (st : Pending) (l : Bytes) : Pending × List Item :=
  if hasPrefix l "id: " then ({ st with ev := { st.ev with ID := l.drop 4 } }, [])
  else if hasPrefix l "id:" then ({ st with ev := { st.ev with ID := l.drop 3 } }, [])
  else if hasPrefix l ": " then ({ st with ev := { st.ev with Comment := l.drop 2 } }, [])
  else if hasPrefix l ":" then ({ st with ev := { st.ev with Comment := l.drop 1 } }, [])
  else if hasPrefix l "event: " then ({ st with ev := { st.ev with Name := l.drop 7 } }, [])
  else if hasPrefix l "event:" then ({ st with ev := { st.ev with Name := l.drop 6 } }, [])
  else if hasPrefix l "data: " then ({ st with buf := st.buf ++ (l.drop 6 ++ [LF]) }, [])
  else if hasPrefix l "data:" then ({ st with buf := st.buf ++ (l.drop 5 ++ [LF]) }, [])
  else if hasPrefix l "retry:" then (st, [])
  else if l = [] ∨ l = [CR] then ({}, [Item.event { st.ev with Data := trimRight st.buf }])
  else (st, [Item.error (errorsNew (ascii "unknown event: " ++ (l ++ [LF])))])

/-- The accumulator after the complete lines `ls`, and the items sent for them. -/
def runLines (st : Pending) : List Bytes → Pending × List Item
  | [] => (st, [])
  | l :: ls => ((runLines (stepLine st l).1 ls).1, (stepLine st l).2 ++ (runLines (stepLine st l).1 ls).2)

/-- The complete line `line` moves the accumulator from `st` to `st1` and sends
nothing: as one pass through the switch, and inside every run of the parser. -/
def SetsPending (line : Bytes) (st st1 : Pending) : Prop :=
  processLine st line = .ok (st1, []) ∧
    ∀ (rest : Bytes) (err : GoError),
      readEventsFrom st (line ++ rest) err = readEventsFrom st1 rest err

/-! ### Well-formed frames -/

/-- One line of a well-formed frame. -/
inductive FrameLine where
  /-- the data line `data: c` -/
  | data (c : Bytes)
  /-- the data line `data:c`, in the bare form -/
  | dataBare (c : Bytes)
  /-- an id, event, comment or retry line, given by its whole content -/
  | field (l : Bytes)
  deriving DecidableEq, Repr

/-- The content of the line on the wire, without its `'\n'`. -/
def FrameLine.content : FrameLine → Bytes
  | .data c => ascii "data: " ++ c
  | .dataBare c => ascii "data:" ++ c
  | .field l => l

/-- What a data line contributes to the event's data. -/
def FrameLine.payload : FrameLine → Option Bytes
  | .data c => some c
  | .dataBare c => some c
  | .field _ => none

/-- The conditions on a frame's line: no line feed inside, a bare data line does
not start its content with a space, and any other line begins with `id:`,
`event:`, `:` or `retry:`. -/
def FrameLine.wellFormed : FrameLine → Prop
  | .data c => LF ∉ c
  | .dataBare c => LF ∉ c ∧ c.head? ≠ some SP
  | .field l => LF ∉ l ∧ (hasPrefix l "id:" = true ∨ hasPrefix l "event:" = true ∨
      hasPrefix l ":" = true ∨ hasPrefix l "retry:" = true)

/-- The blank line that closes a frame: `"\r\n"` or `"\n"`. -/
def blankLine (crlf : Bool) : Bytes := if crlf then [CR, LF] else [LF]

/-- A frame: its lines, and which blank line closes it. -/
structure Frame where
  lines : List FrameLine
  crlf : Bool := false
  deriving DecidableEq, Repr

/-- The bytes of a frame on the wire. -/
def Frame.wire (f : Frame) : Bytes :=
  joinLines (f.lines.map FrameLine.content) ++ blankLine f.crlf

/-- The data the frame's event is to carry: the contents of its data lines joined
by `"\n"`, with the trailing `'\r'` and `'\n'` removed. -/
def Frame.expectedData (f : Frame) : Bytes :=
  trimRight ([LF].intercalate (f.lines.filterMap FrameLine.payload))

/-- The bytes of a sequence of frames on the wire. -/
def wireOf : List Frame → Bytes
  | [] => []
  | f :: fs => f.wire ++ wireOf fs

/-! ### Unrecognized lines -/

/-- A complete line is unrecognized when it is neither `"\n"` nor `"\r\n"` and
begins with none of `id:`, `:`, `event:`, `data:`, `retry:`. -/
def unrecognized (L : Bytes) : Prop :=
  L ≠ [LF] ∧ L ≠ [CR, LF] ∧ hasPrefix L "id:" = false ∧ hasPrefix L ":" = false ∧
    hasPrefix L "event:" = false ∧ hasPrefix L "data:" = false ∧ hasPrefix L "retry:" = false

instance (L : Bytes) : Decidable (unrecognized L) := by
  unfold unrecognized
  infer_instance

/-- The error item sent for an unrecognized line:
`errorChan <- errors.New("unknown event: " + string(line))`. -/
def unknownEvent (line : Bytes) : Item :=
  Item.error (errorsNew (ascii "unknown event: " ++ line))

/-- Whether an item is sent on the error channel. -/
def Item.isError : Item → Bool
  | .error _ => true
  | _ => false

instance (x : FrameLine) : Decidable x.wellFormed := by
  cases x <;> unfold FrameLine.wellFormed <;> infer_instance

/-- The two frames the test server of `sse_test.go` writes for a GET request. -/
def testFrames : List Frame :=
  [ { lines := [.field (ascii "retry: 10000"), .field (ascii ": hello"),
        .field (ascii "id: ABCD"), .data (ascii "\x7b\"ping\": \"pong\"\x7d"),
        .data (ascii "\x7b\"hello\": \"sse\"\x7d")] },
    { lines := [.field (ascii "event: EFGH"), .data (ascii "\x7b\"hello\": \"sse\"\x7d")] } ]

/-- The input made of the lines with contents `ls`, each closed by the line
terminator `t`. -/
def terminated (t : Bytes) : List Bytes → Bytes
  | [] => []
  | l :: ls => l ++ t ++ terminated t ls

/-- The events among the items sent, in order. -/
def eventsOf : List Item → List Event
  | [] => []
  | .event ev :: is => ev :: eventsOf is
  | _ :: is => eventsOf is

/-- The events `readEvents` sends for an input that ends with `io.EOF`. -/
def eventsRead (input : Bytes) : List Event :=
  match readEvents input .eof with
  | .ok items => eventsOf items
  | .error _ => []

/-! ## The session

The side effects of the session (calls of JS functions, the body close, the
close of `done`, the cancellation of the request, metric samples, the start of
the parser) are recorded, in order, in the field `trace` of the client. -/

/-- A JS function held by Go (`sobek.Callable`): its identity and the error its
call returns, if any (a thrown JS exception). A handler is taken to return or to
throw; calls back into the client from inside a handler are not modelled. -/
structure Callable where
  id : Nat
  throws : Option GoError := none
  deriving DecidableEq, Repr

/-- The JS values (`sobek.Value`) this package receives or passes on. -/
inductive Value where
  /-- `sobek.Undefined()` -/
  | undefined
  /-- a JS function -/
  | function (f : Callable)
  /-- `rt.ToValue(err)` -/
  | goError (err : GoError)
  /-- `rt.ToValue(event)` -/
  | event (ev : Event)
  /-- `rt.ToValue(&client)` -/
  | client
  /-- any other value, none of them callable -/
  | other (n : Nat)
  deriving DecidableEq, Repr

/-- `sobek.AssertFunction(v)`. -/
def assertFunction : Value → Option Callable
  | .function f => some f
  | _ => none

/-- The metrics of the samples pushed. -/
inductive Metric where
  | HTTPReqs
  | HTTPReqSending
  | HTTPReqDuration
  | SSEEventReceived
  deriving DecidableEq, Repr

/-- The value of a sample: the constant 1, or one of the two durations measured
on the wall clock, which are kept symbolic. -/
inductive SampleValue where
  | one
  | connDuration
  | requestDuration
  deriving DecidableEq, Repr

/-- A `metrics.Sample`, by its metric and value. -/
structure Sample where
  metric : Metric
  value : SampleValue
  deriving DecidableEq, Repr

/-- The side effects of a session. -/
inductive Effect where
  /-- a JS function is called with the arguments -/
  | call (f : Callable) (args : List Value)
  /-- the setup callback is called -/
  | setup
  /-- `c.resp.Body.Close()` -/
  | bodyClose
  /-- `close(c.done)` -/
  | closeDone
  /-- `c.cancelRequest()` -/
  | cancelRequest
  /-- `metrics.PushIfNotDone` hands samples to the output -/
  | push (samples : List Sample)
  /-- `go client.readEvents(...)` -/
  | goReadEvents
  deriving DecidableEq, Repr

/-- How a Go function of the session can panic. -/
inductive Panic where
  /-- `common.Throw`: the error of a JS call, raised as a panic -/
  | throw (err : GoError)
  /-- a nil pointer dereference, or the call of a nil function -/
  | nilDereference
  /-- close of a closed channel -/
  | closeOfClosedChannel
  deriving DecidableEq, Repr

/-- The `*http.Response` as far as the session reads it: the status code, the
header, and what `Body.Close()` returns. -/
structure Response where
  StatusCode : Int := 200
  Header : List (String × List String) := []
  closeErr : Option GoError := none
  deriving DecidableEq, Repr

/-- Client is the representation of the sse returned to the js. -/
structure Client where
  url : String := ""
  /-- `c.resp`, nil until `httpClient.Do` hands back a response -/
  resp : Option Response := none
  /-- `c.eventHandlers`, a map from the event kind to the handlers registered -/
  eventHandlers : String → Option (List Callable) := fun _ => none
  /-- whether the channel `c.done` is closed -/
  doneClosed : Bool := false
  /-- whether `c.shutdownOnce` has run -/
  shutdownOnce : Bool := false
  /-- whether `c.ctx`, the caller's context, is done -/
  ctxDone : Bool := false
  /-- the side effects so far -/
  trace : List Effect := []

/-- HTTPResponse is the http response returned by sse.open. -/
structure HTTPResponse where
  URL : String := ""
  Status : Int := 0
  Headers : List (String × String) := []
  Error : Bytes := []
  deriving DecidableEq, Repr

/-- Records a side effect. -/
def Client.log (c : Client) (e : Effect) : Client := { c with trace := c.trace ++ [e] }

/-- `metrics.PushIfNotDone(c.ctx, c.samplesOutput, samples)`. -/
def pushIfNotDone (c : Client) (samples : List Sample) : Client :=
  if c.ctxDone then c else c.log (.push samples)

/-- On is used to configure what the client should do on each event. -/
def On (c : Client) (event : String) (handler : Value) : Client :=
  match assertFunction handler with
  | some h =>
    { c with eventHandlers := fun k =>
        if k = event then some ((c.eventHandlers event).getD [] ++ [h]) else c.eventHandlers k }
  | none => c

/-- The `for` loop of `handleEvent` over the handlers of the event. -/
def callHandlers (args : List Value) : List Callable → Client → Except Panic Unit × Client
  | [], c => (.ok (), c)
  | h :: hs, c =>
    match h.throws with
    | some err => (.error (.throw err), c.log (.call h args))
    | none => callHandlers args hs (c.log (.call h args))

/-- `handleEvent(event, args...)`: calls the handlers registered for the event,
in order, and raises the error of the first one that fails. -/
def handleEvent (c : Client) (event : String) (args : List Value) : Except Panic Unit × Client :=
  match c.eventHandlers event with
  | some handlers => callHandlers args handlers c
  | none => (.ok (), c)

/-- closeResponseBody cleanly closes the response body. `shutdownOnce.Do` marks
itself done when its function returns or panics. -/
def closeResponseBody (c : Client) : Except Panic (Option GoError) × Client :=
  if c.shutdownOnce then (.ok none, c)
  else
    match c.resp with
    | none => (.error .nilDereference, { c with shutdownOnce := true })
    | some resp =>
      let c1 := c.log .bodyClose
      let err := resp.closeErr
      let r :=
        match err with
        | some e => handleEvent c1 "error" [.goError e]
        | none => (.ok (), c1)
      match r with
      | (.error p, c2) => (.error p, { c2 with shutdownOnce := true })
      | (.ok (), c2) =>
        if c2.doneClosed then (.error .closeOfClosedChannel, { c2 with shutdownOnce := true })
        else (.ok err, { (c2.log .closeDone) with doneClosed := true, shutdownOnce := true })

/-- Close the event loop. -/
def Close (c : Client) : Except Panic (Option GoError) × Client :=
  match closeResponseBody c with
  | (.error p, c1) => (.error p, c1)
  | (.ok err, c1) => (.ok err, c1.log .cancelRequest)

/-- Wrap the raw HTTPResponse we received to a sse.HTTPResponse we can pass to the user. -/
def wrapHTTPResponse (c : Client) (errMessage : Bytes) : Except Panic HTTPResponse :=
  if errMessage ≠ [] then .ok { Error := errMessage }
  else
    match c.resp with
    | none => .error .nilDereference
    | some resp =>
      .ok { URL := c.url, Status := resp.StatusCode,
            Headers := resp.Header.map fun kv => (kv.1, ", ".intercalate kv.2) }

/-- The sample pushed by `pushSSEMetrics` when the connection attempt is over. -/
def connSamples : List Sample := [⟨.HTTPReqSending, .connDuration⟩]

/-- The samples pushed by the hook that `pushSSEMetrics` returns. -/
def endSamples : List Sample :=
  [⟨.HTTPReqs, .one⟩, ⟨.HTTPReqSending, .connDuration⟩, ⟨.HTTPReqDuration, .requestDuration⟩]

/-- The sample pushed for an event received. -/
def eventSample : List Sample := [⟨.SSEEventReceived, .one⟩]

/-- The error of `httpClient.Do`: by the contract of `net/http`, any error it
returns is of type `*url.Error`. -/
structure UrlError where
  Op : Bytes
  URL : Bytes
  Err : GoError
  deriving DecidableEq, Repr

/-- The `*url.Error` as an `error` value. -/
def UrlError.toError (e : UrlError) : GoError := .urlError e.Op e.URL e.Err

/-- What the network does for `open`: building the request fails, or
`httpClient.Do(req)` returns a response, an error, or both. -/
inductive Attempt where
  /-- `http.NewRequestWithContext` returns the error -/
  | badRequest (err : GoError)
  /-- `httpClient.Do(req)` returns `(resp, err)` -/
  | roundTrip (resp : Option Response) (err : Option UrlError)
  deriving DecidableEq, Repr

/-- The end-of-session hook `open` returns: nil, or the closure of `pushSSEMetrics`. -/
inductive Hook where
  | pushEnd
  deriving DecidableEq, Repr

/-- `mi.open`: the client, the end-of-session hook and the error. `ctxDone` tells
whether the caller's context is done already. -/
def miOpen (ctxDone : Bool) (url : String) (a : Attempt) : Client × Option Hook × Option GoError :=
  let sseClient : Client := { url := url, ctxDone := ctxDone }
  match a with
  | .badRequest err => (sseClient, none, some err)
  | .roundTrip resp err =>
    let sseClient : Client :=
      match resp with
      | some r => { sseClient with resp := some r }
      | none => sseClient
    (pushIfNotDone sseClient connSamples, some .pushEnd, err.map UrlError.toError)

/-- A call the setup callback makes on the client it is given. -/
inductive ClientCall where
  /-- `client.on(event, handler)` -/
  | on (event : String) (handler : Value)
  /-- `client.close()` -/
  | close
  deriving DecidableEq, Repr

/-- The user's setup callback: the calls it makes on the client, in order, and
the error it returns, if any. -/
structure SetupFn where
  calls : List ClientCall := []
  throws : Option GoError := none
  deriving DecidableEq, Repr

/-- The calls of the setup callback on the client. An error of `client.close()`
that reaches the script as a JS exception does not stop the script here (what the
callback returns in the end is its `throws`); a Go run-time panic does. -/
def runCalls : List ClientCall → Client → Except Panic Unit × Client
  | [], c => (.ok (), c)
  | .on event handler :: rest, c => runCalls rest (On c event handler)
  | .close :: rest, c =>
    match Close c with
    | (.error (.throw _), c1) => runCalls rest c1
    | (.error p, c1) => (.error p, c1)
    | (.ok _, c1) => runCalls rest c1

/-- `parsedArgs.setupFn(sobek.Undefined(), rt.ToValue(&client))`. -/
def runSetup (f : SetupFn) (c : Client) : Except Panic (Option GoError) × Client :=
  match runCalls f.calls (c.log .setup) with
  | (.error p, c1) => (.error p, c1)
  | (.ok (), c1) => (.ok f.throws, c1)

/-- What the `select` of the control loop receives, or, for `cancel`, the
caller's context becoming done while the loop runs. -/
inductive Signal where
  /-- the caller's context is cancelled -/
  | cancel
  /-- `case event := <-readEventChan` -/
  | event (ev : Event)
  /-- `case readErr := <-readErrChan` -/
  | readErr (err : GoError)
  /-- `case <-ctx.Done()` -/
  | ctxDone
  /-- `case <-readCloseChan` -/
  | readClose
  /-- `case <-client.done` -/
  | done
  deriving DecidableEq, Repr

/-- How a call of `Open` ends. -/
inductive OpenReturn where
  /-- it returns `(resp, err)` -/
  | ret (resp : Option HTTPResponse) (err : Option GoError)
  /-- it panics -/
  | panic (p : Panic)
  /-- it still waits in the `select` when the schedule is used up -/
  | waiting
  deriving DecidableEq, Repr

/-- The main control loop of `Open`, on the sequence of cases its `select` takes.
The case `<-ctx.Done()` is ready only when the context is done, so taking it
means the context is done by then; the case `<-client.done` is ready only when
`done` is closed, and is passed over otherwise. -/
def controlLoop : List Signal → Client → OpenReturn × Client
  | [], c => (.waiting, c)
  | .cancel :: rest, c => controlLoop rest { c with ctxDone := true }
  | .event ev :: rest, c =>
    match handleEvent (pushIfNotDone c eventSample) "event" [.event ev] with
    | (.error p, c1) => (.panic p, c1)
    | (.ok (), c1) => controlLoop rest c1
  | .readErr err :: rest, c =>
    match handleEvent c "error" [.goError err] with
    | (.error p, c1) => (.panic p, c1)
    | (.ok (), c1) => controlLoop rest c1
  | .ctxDone :: rest, c =>
    -- VU is shutting down during an interrupt
    match closeResponseBody { c with ctxDone := true } with
    | (.error p, c1) => (.panic p, c1)
    | (.ok _, c1) => controlLoop rest c1
  | .readClose :: rest, c =>
    match closeResponseBody c with
    | (.error p, c1) => (.panic p, c1)
    | (.ok _, c1) => controlLoop rest c1
  | .done :: rest, c =>
    if c.doneClosed then
      -- This is the final exit point normally triggered by closeResponseBody
      match wrapHTTPResponse c [] with
      | .error p => (.panic p, c)
      | .ok r => (.ret (some r) none, c)
    else controlLoop rest c

/-- `lib.State`, as far as `Open` reads it: the option `Throw`. -/
structure State where
  Throw : Bool := false
  deriving DecidableEq, Repr

/-- ErrSSEInInitContext is returned when sse are using in the init context. -/
def ErrSSEInInitContext : GoError :=
  .other (ascii "using sse in the init context is not supported")

/-- The body of `Open` after `defer connEndHook()`. -/
def openBody (state : State) (setupFn : SetupFn) (client : Client) (err : Option GoError)
    (schedule : List Signal) : OpenReturn × Client :=
  match err with
  | some err =>
    -- Pass the error to the user script before exiting immediately
    match handleEvent client "error" [.goError err] with
    | (.error p, c1) => (.panic p, c1)
    | (.ok (), c1) =>
      if state.Throw then (.ret none (some err), c1)
      else
        match wrapHTTPResponse c1 err.Error with
        | .error p => (.panic p, c1)
        | .ok r => (.ret (some r) none, c1)
  | none =>
    -- Run the user-provided set up function
    match runSetup setupFn client with
    | (.error p, c1) => (.panic p, c1)
    | (.ok (some e), c1) =>
      match closeResponseBody c1 with
      | (.error p, c2) => (.panic p, c2)
      | (.ok _, c2) => (.ret none (some e), c2)
    | (.ok none, c1) =>
      -- The connection is now open, emit the event
      match handleEvent c1 "open" [] with
      | (.error p, c2) => (.panic p, c2)
      | (.ok (), c2) => controlLoop schedule (c2.log .goReadEvents)

/-- Open establishes a http client connection based on the parameters provided.
`state` is `mi.vu.State()`, `parsed` the result of `parseConnectArgs`, `ctxDone`
whether the caller's context is done at the call, `a` what the network does and
`schedule` what the control loop receives. The deferred `connEndHook()` runs when
the body returns or panics, and panics itself when the hook is nil; it has not run
while the loop still waits. -/
def Open (state : Option State) (url : String) (parsed : Except GoError SetupFn)
    (ctxDone : Bool) (a : Attempt) (schedule : List Signal) : OpenReturn × Option Client :=
  match state with
  | none => (.ret none (some ErrSSEInInitContext), none)
  | some st =>
    match parsed with
    | .error err => (.ret none (some err), none)
    | .ok setupFn =>
      match miOpen ctxDone url a with
      | (client, connEndHook, err) =>
        match openBody st setupFn client err schedule with
        | (.waiting, c1) => (.waiting, some c1)
        | (r, c1) =>
          match connEndHook with
          | none => (.panic .nilDereference, some c1)
          | some _ => (r, some (pushIfNotDone c1 endSamples))

/-- Registers the handlers `hs` for the event `kind`, in order. -/
def register (c : Client) (kind : String) : List Callable → Client
  | [] => c
  | h :: hs => register (On c kind (.function h)) kind hs

/-- The client after `n` calls of `Close`, whatever each call returned. -/
def closeTimes : Nat → Client → Client
  | 0, c => c
  | n + 1, c => closeTimes n (Close c).2

/-- An "error" handler that throws. -/
def throwingHandler : Callable := { id := 1, throws := some (.other (ascii "boom")) }

/-- A session whose body close fails and whose "error" handler throws. -/
def failingClient : Client :=
  { resp := some { closeErr := some (.other (ascii "close failed")) },
    eventHandlers := fun k => if k = "error" then some [throwingHandler] else none }

/-- The connect error of the examples: what `httpClient.Do` returns for the URL
`INVALID`. -/
def connectError : UrlError :=
  { Op := ascii "Get", URL := ascii "INVALID",
    Err := .other (ascii "unsupported protocol scheme \"\"") }

/-- A setup callback that registers one "error" handler, which does not throw. -/
def errorSetup : SetupFn := { calls := [.on "error" (.function { id := 7 })] }

/-- Whether an item is sent on the event channel. -/
def Item.isEvent : Item → Bool
  | .event _ => true
  | _ => false

/-- A session whose body close fails and that has two "error" handlers, the
first of which throws. -/
def twoHandlerClient : Client :=
  { resp := some { closeErr := some (.other (ascii "close failed")) },
    eventHandlers := fun k => if k = "error" then some [throwingHandler, { id := 2 }] else none }

/-- The events the control loop receives from `readEventChan` in its run on
`schedule`, in order, each with whether the caller's context was done when the
event was received. It follows the cases of `controlLoop` one by one. -/
def eventsReceived : List Signal → Client → List (Event × Bool)
  | [], _ => []
  | .cancel :: rest, c => eventsReceived rest { c with ctxDone := true }
  | .event ev :: rest, c =>
    (ev, c.ctxDone) ::
      match handleEvent (pushIfNotDone c eventSample) "event" [.event ev] with
      | (.error _, _) => []
      | (.ok (), c1) => eventsReceived rest c1
  | .readErr err :: rest, c =>
    match handleEvent c "error" [.goError err] with
    | (.error _, _) => []
    | (.ok (), c1) => eventsReceived rest c1
  | .ctxDone :: rest, c =>
    match closeResponseBody { c with ctxDone := true } with
    | (.error _, _) => []
    | (.ok _, c1) => eventsReceived rest c1
  | .readClose :: rest, c =>
    match closeResponseBody c with
    | (.error _, _) => []
    | (.ok _, c1) => eventsReceived rest c1
  | .done :: rest, c => if c.doneClosed then [] else eventsReceived rest c

/-- An open session with one "error" handler and one "event" handler, neither of
which throws, whose body close fails. -/
def reportingClient : Client :=
  { resp := some { closeErr := some (.other (ascii "close failed")) },
    eventHandlers := fun k =>
      if k = "error" then some [{ id := 7 }] else if k = "event" then some [{ id := 4 }] else none }

/-- An open session with one "event" handler, whose body close succeeds. -/
def listeningClient : Client :=
  { resp := some {},
    eventHandlers := fun k => if k = "event" then some [{ id := 4 }] else none }

/-- A setup callback that registers a throwing "error" handler and then fails. -/
def failingSetup : SetupFn :=
  { calls := [.on "error" (.function throwingHandler)],
    throws := some (.other (ascii "error in setup")) }

/-- The state of a session with the response `resp` while its setup callback
runs: `done` is closed exactly when the release has run, the body and `done` are
closed once then and not at all before, the parser is not started, no handler is
called without argument (as the "open" handlers are), and no "error" handler
fails if the body close returns an error. -/
def SetupInv (resp : Response) (c : Client) : Prop :=
  c.resp = some resp ∧ c.doneClosed = c.shutdownOnce ∧
  List.count Effect.bodyClose c.trace = (if c.shutdownOnce then 1 else 0) ∧
  List.count Effect.closeDone c.trace = (if c.shutdownOnce then 1 else 0) ∧
  Effect.goReadEvents ∉ c.trace ∧ (∀ f : Callable, Effect.call f [] ∉ c.trace) ∧
  (resp.closeErr ≠ none → ∀ f ∈ (c.eventHandlers "error").getD [], f.throws = none)

/-! ## The parser reads line by line -/

theorem ascii_id_sp : ascii "id: " = [105, 100, 58, 32] := rfl
theorem ascii_id : ascii "id:" = [105, 100, 58] := rfl
theorem ascii_colon_sp : ascii ": " = [58, 32] := rfl
theorem ascii_colon : ascii ":" = [58] := rfl
theorem ascii_event_sp : ascii "event: " = [101, 118, 101, 110, 116, 58, 32] := rfl
theorem ascii_event : ascii "event:" = [101, 118, 101, 110, 116, 58] := rfl
theorem ascii_data_sp : ascii "data: " = [100, 97, 116, 97, 58, 32] := rfl
theorem ascii_data : ascii "data:" = [100, 97, 116, 97, 58] := rfl
theorem ascii_retry : ascii "retry:" = [114, 101, 116, 114, 121, 58] := rfl

theorem readBytes_line (l rest : Bytes) (h : LF ∉ l) :
    readBytes LF (l ++ LF :: rest) = (l ++ [LF], some rest) := by
  induction l with
  | nil => simp [readBytes]
  | cons b bs ih =>
    have hb : b ≠ LF := fun e => h (by simp [e])
    have hbs : LF ∉ bs := fun e => h (by simp [e])
    simp [readBytes, hb, ih hbs]

theorem readBytes_tail (p : Bytes) (h : LF ∉ p) : readBytes LF p = (p, none) := by
  induction p with
  | nil => simp [readBytes]
  | cons b bs ih =>
    have hb : b ≠ LF := fun e => h (by simp [e])
    have hbs : LF ∉ bs := fun e => h (by simp [e])
    simp [readBytes, hb, ih hbs]

/-- Every input is a first complete line followed by the rest, or holds no line feed. -/
theorem input_split (input : Bytes) :
    (∃ l rest, LF ∉ l ∧ input = l ++ LF :: rest) ∨ LF ∉ input := by
  induction input with
  | nil => right; simp
  | cons b bs ih =>
    by_cases hb : b = LF
    · left; exact ⟨[], bs, by simp, by simp [hb]⟩
    · rcases ih with ⟨l, rest, hl, rfl⟩ | h
      · left
        refine ⟨b :: l, rest, ?_, by simp⟩
        simp only [List.mem_cons, not_or]
        exact ⟨fun e => hb e.symm, hl⟩
      · right
        simp only [List.mem_cons, not_or]
        exact ⟨fun e => hb e.symm, h⟩

/-- The result of the loop does not depend on the bound once it exceeds the input length. -/
theorem readEventsLoop_fuel (n : Nat) :
    ∀ (m : Nat) (st : Pending) (input : Bytes) (err : GoError),
      input.length < n → input.length < m →
      readEventsLoop n st input err = readEventsLoop m st input err := by
  induction n with
  | zero => intro m st input err hn; omega
  | succ n ih =>
    intro m st input err hn hm
    cases m with
    | zero => omega
    | succ m =>
      rcases input_split input with ⟨l, rest, hl, rfl⟩ | h
      · have hlen : rest.length < n ∧ rest.length < m := by
          simp only [List.length_append, List.length_cons] at hn hm
          omega
        simp only [readEventsLoop, readBytes_line l rest hl]
        cases processLine st (l ++ [LF]) with
        | error f => rfl
        | ok r => simp only [ih m r.1 rest err hlen.1 hlen.2]
      · simp only [readEventsLoop, readBytes_tail input h]

theorem readEventsLoop_line (n : Nat) (st : Pending) (l rest : Bytes) (err : GoError)
    (hl : LF ∉ l) :
    readEventsLoop (n + 1) st (l ++ LF :: rest) err =
      match processLine st (l ++ [LF]) with
      | .error f => .error f
      | .ok (st1, items) =>
        match readEventsLoop n st1 rest err with
        | .error f => .error f
        | .ok more => .ok (items ++ more) := by
  simp only [readEventsLoop, readBytes_line l rest hl]

/-- One iteration of `readEvents` on an input that starts with a complete line. -/
theorem readEventsFrom_line (st : Pending) (l rest : Bytes) (err : GoError) (hl : LF ∉ l) :
    readEventsFrom st (l ++ LF :: rest) err =
      match processLine st (l ++ [LF]) with
      | .error f => .error f
      | .ok (st1, items) =>
        match readEventsFrom st1 rest err with
        | .error f => .error f
        | .ok more => .ok (items ++ more) := by
  unfold readEventsFrom
  rw [readEventsLoop_line _ st l rest err hl]
  cases processLine st (l ++ [LF]) with
  | error f => rfl
  | ok r =>
    have h := readEventsLoop_fuel (l ++ LF :: rest).length (rest.length + 1) r.1 rest err
      (by simp only [List.length_append, List.length_cons]; omega) (by omega)
    simp only [h]

/-- At an input without a line feed the read fails and `readEvents` ends. -/
theorem readEventsFrom_tail (st : Pending) (p : Bytes) (err : GoError) (hp : LF ∉ p) :
    readEventsFrom st p err = .ok [terminal err] := by
  unfold readEventsFrom
  simp only [readEventsLoop, readBytes_tail p hp]

/-! ## The switch on a complete line -/

theorem hasPrefix_iff (l : Bytes) (p : String) : hasPrefix l p = true ↔ ascii p <+: l := by
  unfold hasPrefix
  exact List.isPrefixOf_iff_prefix

theorem hasPrefix_length (l : Bytes) (p : String) (h : hasPrefix l p = true) :
    (ascii p).length ≤ l.length :=
  ((hasPrefix_iff l p).1 h).length_le

/-- A prefix without a line feed matches a complete line exactly when it matches
the line's content. -/
theorem hasPrefix_line (l : Bytes) (p : String) (hp : LF ∉ ascii p) :
    hasPrefix (l ++ [LF]) p = hasPrefix l p := by
  rw [Bool.eq_iff_iff, hasPrefix_iff, hasPrefix_iff, List.prefix_concat_iff]
  constructor
  · rintro (h | h)
    · exact absurd (by simp [h]) hp
    · exact h
  · exact fun h => Or.inr h

theorem slice_ok (line : Bytes) (lo hi : Nat) (h1 : lo ≤ hi) (h2 : hi ≤ line.length) :
    slice line lo (hi : Int) = .ok ((line.take hi).drop lo) := by
  unfold slice
  have h : ((lo : Int) ≤ (hi : Int) ∧ (hi : Int) ≤ (line.length : Int)) := by omega
  simp only [h, and_self, if_true, Int.toNat_ofNat]

theorem stripPrefix_line (l : Bytes) (k : Nat) (hk : k ≤ l.length) :
    stripPrefix (l ++ [LF]) k = .ok (l.drop k) := by
  unfold stripPrefix
  have e : (((l ++ [LF]).length : Int) - 1) = ((l.length : Nat) : Int) := by
    simp
  rw [e, slice_ok _ _ _ hk (by simp)]
  simp

theorem sliceFrom_line (l : Bytes) (k : Nat) (hk : k ≤ l.length) :
    sliceFrom (l ++ [LF]) k = .ok (l.drop k ++ [LF]) := by
  unfold sliceFrom
  rw [slice_ok _ _ _ (by simp only [List.length_append, List.length_singleton]; omega)
    (le_refl _), List.take_length, List.drop_append_of_le_length hk]

theorem isLineEnd_line (l : Bytes) : isLineEnd (l ++ [LF]) = decide (l = [] ∨ l = [CR]) := by
  unfold isLineEnd
  rw [Bool.eq_iff_iff]
  simp only [Bool.or_eq_true, beq_iff_eq, decide_eq_true_eq]
  constructor
  · rintro (h | h)
    · left
      have := congrArg List.length h
      simp at this
      exact this
    · right
      have h2 : l ++ [LF] = [CR] ++ [LF] := h
      exact List.append_cancel_right h2
  · rintro (h | h) <;> simp [h]

/-- On a complete line the switch never fails, and is `stepLine` of the content. -/
theorem processLine_line (st : Pending) (l : Bytes) :
    processLine st (l ++ [LF]) = .ok (stepLine st l) := by
  unfold processLine stepLine
  rw [hasPrefix_line l "id: " (by decide), hasPrefix_line l "id:" (by decide),
    hasPrefix_line l ": " (by decide), hasPrefix_line l ":" (by decide),
    hasPrefix_line l "event: " (by decide), hasPrefix_line l "event:" (by decide),
    hasPrefix_line l "data: " (by decide), hasPrefix_line l "data:" (by decide),
    hasPrefix_line l "retry:" (by decide), isLineEnd_line]
  by_cases h1 : hasPrefix l "id: " = true
  · rw [if_pos h1, if_pos h1, stripPrefix_line l 4 (hasPrefix_length l _ h1)]; rfl
  rw [if_neg h1, if_neg h1]
  by_cases h2 : hasPrefix l "id:" = true
  · rw [if_pos h2, if_pos h2, stripPrefix_line l 3 (hasPrefix_length l _ h2)]; rfl
  rw [if_neg h2, if_neg h2]
  by_cases h3 : hasPrefix l ": " = true
  · rw [if_pos h3, if_pos h3, stripPrefix_line l 2 (hasPrefix_length l _ h3)]; rfl
  rw [if_neg h3, if_neg h3]
  by_cases h4 : hasPrefix l ":" = true
  · rw [if_pos h4, if_pos h4, stripPrefix_line l 1 (hasPrefix_length l _ h4)]; rfl
  rw [if_neg h4, if_neg h4]
  by_cases h5 : hasPrefix l "event: " = true
  · rw [if_pos h5, if_pos h5, stripPrefix_line l 7 (hasPrefix_length l _ h5)]; rfl
  rw [if_neg h5, if_neg h5]
  by_cases h6 : hasPrefix l "event:" = true
  · rw [if_pos h6, if_pos h6, stripPrefix_line l 6 (hasPrefix_length l _ h6)]; rfl
  rw [if_neg h6, if_neg h6]
  by_cases h7 : hasPrefix l "data: " = true
  · rw [if_pos h7, if_pos h7, sliceFrom_line l 6 (hasPrefix_length l _ h7)]; rfl
  rw [if_neg h7, if_neg h7]
  by_cases h8 : hasPrefix l "data:" = true
  · rw [if_pos h8, if_pos h8, sliceFrom_line l 5 (hasPrefix_length l _ h8)]; rfl
  rw [if_neg h8, if_neg h8]
  by_cases h9 : hasPrefix l "retry:" = true
  · rw [if_pos h9, if_pos h9]
  rw [if_neg h9, if_neg h9]
  by_cases h10 : l = [] ∨ l = [CR]
  · rw [if_pos h10, if_pos (decide_eq_true h10)]
  · rw [if_neg h10, if_neg (fun h => h10 (of_decide_eq_true h))]

/-- The loop on an input that starts with a complete line, in terms of `stepLine`. -/
theorem readEventsFrom_cons (st : Pending) (l rest : Bytes) (err : GoError) (hl : LF ∉ l) :
    readEventsFrom st (l ++ LF :: rest) err =
      match readEventsFrom (stepLine st l).1 rest err with
      | .error f => .error f
      | .ok more => .ok ((stepLine st l).2 ++ more) := by
  rw [readEventsFrom_line st l rest err hl, processLine_line]

/-- The loop on an input that starts with complete lines. -/
theorem readEventsFrom_lines (ls : List Bytes) (hls : ∀ l ∈ ls, LF ∉ l) :
    ∀ (st : Pending) (rest : Bytes) (err : GoError),
      readEventsFrom st (joinLines ls ++ rest) err =
        match readEventsFrom (runLines st ls).1 rest err with
        | .error f => .error f
        | .ok more => .ok ((runLines st ls).2 ++ more) := by
  induction ls with
  | nil =>
    intro st rest err
    simp only [joinLines, runLines, List.nil_append]
    cases readEventsFrom st rest err <;> rfl
  | cons l ls ih =>
    intro st rest err
    have hl : LF ∉ l := hls l (by simp)
    have hls2 : ∀ x ∈ ls, LF ∉ x := fun x hx => hls x (by simp [hx])
    simp only [joinLines, runLines, List.append_assoc, List.cons_append]
    rw [readEventsFrom_cons st l _ err hl, ih hls2]
    cases readEventsFrom (runLines (stepLine st l).1 ls).1 rest err with
    | error f => rfl
    | ok more => simp only [List.append_assoc]

/-- Every input is a sequence of complete lines followed by bytes without a line feed. -/
theorem input_lines (input : Bytes) :
    ∃ (ls : List Bytes) (p : Bytes), (∀ l ∈ ls, LF ∉ l) ∧ LF ∉ p ∧ input = joinLines ls ++ p := by
  induction input using List.reverseRecOn with
  | nil => exact ⟨[], [], by simp, by simp, rfl⟩
  | append_singleton bs b ih =>
    obtain ⟨ls, p, hls, hp, rfl⟩ := ih
    by_cases hb : b = LF
    · refine ⟨ls ++ [p], [], ?_, by simp, ?_⟩
      · intro l hl
        rcases List.mem_append.1 hl with h | h
        · exact hls l h
        · rw [List.mem_singleton.1 h]; exact hp
      · subst hb
        clear hls hp
        induction ls with
        | nil => simp [joinLines]
        | cons x xs ih2 => simp [joinLines, ih2]
    · refine ⟨ls, p ++ [b], hls, ?_, by simp⟩
      simp only [List.mem_append, List.mem_singleton, not_or]
      exact ⟨hp, fun e => hb e.symm⟩

/-- The parser returns on every input: it sends the items of the complete lines
and then the terminal item. -/
theorem readEventsFrom_total (st : Pending) (input : Bytes) (err : GoError) :
    ∃ body, readEventsFrom st input err = .ok (body ++ [terminal err]) := by
  obtain ⟨ls, p, hls, hp, rfl⟩ := input_lines input
  refine ⟨(runLines st ls).2, ?_⟩
  rw [readEventsFrom_lines ls hls, readEventsFrom_tail _ p err hp]

/-! ## Field lines -/

theorem setsPending_of_stepLine (st st1 : Pending) (l : Bytes) (hl : LF ∉ l)
    (h : stepLine st l = (st1, [])) : SetsPending (l ++ [LF]) st st1 := by
  refine ⟨by rw [processLine_line, h], fun rest err => ?_⟩
  have e : l ++ [LF] ++ rest = l ++ LF :: rest := by simp
  rw [e, readEventsFrom_cons st l rest err hl, h]
  cases readEventsFrom st1 rest err <;> rfl

theorem not_mem_append_of (a b : Bytes) (ha : LF ∉ a) (hb : LF ∉ b) : LF ∉ a ++ b := by
  simp only [List.mem_append, not_or]
  exact ⟨ha, hb⟩

theorem isPrefixOf_sp (X : Bytes) (hX : X.head? ≠ some SP) : ¬ ([32] <+: X) := by
  cases X with
  | nil => simp
  | cons b bs =>
    have hb : ¬ (b = 32) := fun e => hX (by simp [e, SP])
    intro h
    have h2 := List.isPrefixOf_iff_prefix.2 h
    simp only [List.isPrefixOf, Bool.and_eq_true, beq_iff_eq] at h2
    exact hb h2.1.symm

theorem stepLine_id_sp (st : Pending) (X : Bytes) :
    stepLine st (ascii "id: " ++ X) = ({ st with ev := { st.ev with ID := X } }, []) := by
  simp [stepLine, hasPrefix, ascii_id_sp, List.isPrefixOf]

theorem stepLine_id (st : Pending) (X : Bytes) (hX : X.head? ≠ some SP) :
    stepLine st (ascii "id:" ++ X) = ({ st with ev := { st.ev with ID := X } }, []) := by
  have h := isPrefixOf_sp X hX
  simp [stepLine, hasPrefix, ascii_id_sp, ascii_id, List.isPrefixOf, h]

theorem stepLine_colon_sp (st : Pending) (X : Bytes) :
    stepLine st (ascii ": " ++ X) = ({ st with ev := { st.ev with Comment := X } }, []) := by
  simp [stepLine, hasPrefix, ascii_id_sp, ascii_id, ascii_colon_sp, List.isPrefixOf]

theorem stepLine_colon (st : Pending) (X : Bytes) (hX : X.head? ≠ some SP) :
    stepLine st (ascii ":" ++ X) = ({ st with ev := { st.ev with Comment := X } }, []) := by
  have h := isPrefixOf_sp X hX
  simp [stepLine, hasPrefix, ascii_id_sp, ascii_id, ascii_colon_sp, ascii_colon,
    List.isPrefixOf, h]

theorem stepLine_event_sp (st : Pending) (X : Bytes) :
    stepLine st (ascii "event: " ++ X) = ({ st with ev := { st.ev with Name := X } }, []) := by
  simp [stepLine, hasPrefix, ascii_id_sp, ascii_id, ascii_colon_sp, ascii_colon,
    ascii_event_sp, List.isPrefixOf]

theorem stepLine_event (st : Pending) (X : Bytes) (hX : X.head? ≠ some SP) :
    stepLine st (ascii "event:" ++ X) = ({ st with ev := { st.ev with Name := X } }, []) := by
  have h := isPrefixOf_sp X hX
  simp [stepLine, hasPrefix, ascii_id_sp, ascii_id, ascii_colon_sp, ascii_colon,
    ascii_event_sp, ascii_event, List.isPrefixOf, h]

theorem stepLine_data_sp (st : Pending) (c : Bytes) :
    stepLine st (ascii "data: " ++ c) = ({ st with buf := st.buf ++ (c ++ [LF]) }, []) := by
  simp [stepLine, hasPrefix, ascii_id_sp, ascii_id, ascii_colon_sp, ascii_colon,
    ascii_event_sp, ascii_event, ascii_data_sp, List.isPrefixOf]

theorem stepLine_data (st : Pending) (c : Bytes) (hc : c.head? ≠ some SP) :
    stepLine st (ascii "data:" ++ c) = ({ st with buf := st.buf ++ (c ++ [LF]) }, []) := by
  have h := isPrefixOf_sp c hc
  simp [stepLine, hasPrefix, ascii_id_sp, ascii_id, ascii_colon_sp, ascii_colon,
    ascii_event_sp, ascii_event, ascii_data_sp, ascii_data, List.isPrefixOf, h]

/-- C2. For every `X` without a line feed, the lines `id: X`, `event: X` and `: X`
set the pending event's ID, Name and Comment to exactly `X`, whatever value the
field had before, leave the other fields and the data buffer as they were and send
nothing; the bare forms `id:X`, `event:X` and `:X` do the same when `X` does not
start with a space; of two lines of one kind the later one decides the value. -/
theorem readEvents_field_lines (st : Pending) (X : Bytes) (hX : LF ∉ X) :
    SetsPending (ascii "id: " ++ X ++ [LF]) st { st with ev := { st.ev with ID := X } } ∧
    SetsPending (ascii "event: " ++ X ++ [LF]) st { st with ev := { st.ev with Name := X } } ∧
    SetsPending (ascii ": " ++ X ++ [LF]) st { st with ev := { st.ev with Comment := X } } ∧
    (X.head? ≠ some SP →
      SetsPending (ascii "id:" ++ X ++ [LF]) st { st with ev := { st.ev with ID := X } } ∧
      SetsPending (ascii "event:" ++ X ++ [LF]) st { st with ev := { st.ev with Name := X } } ∧
      SetsPending (ascii ":" ++ X ++ [LF]) st { st with ev := { st.ev with Comment := X } }) ∧
    (∀ (Y rest : Bytes) (err : GoError), LF ∉ Y →
      readEventsFrom st (ascii "id: " ++ Y ++ [LF] ++ (ascii "id: " ++ X ++ [LF] ++ rest)) err =
        readEventsFrom { st with ev := { st.ev with ID := X } } rest err ∧
      readEventsFrom st
          (ascii "event: " ++ Y ++ [LF] ++ (ascii "event: " ++ X ++ [LF] ++ rest)) err =
        readEventsFrom { st with ev := { st.ev with Name := X } } rest err ∧
      readEventsFrom st (ascii ": " ++ Y ++ [LF] ++ (ascii ": " ++ X ++ [LF] ++ rest)) err =
        readEventsFrom { st with ev := { st.ev with Comment := X } } rest err) := by
  have lit : ∀ p : String, LF ∉ ascii p → ∀ Z : Bytes, LF ∉ Z → LF ∉ ascii p ++ Z :=
    fun p hp Z hZ => not_mem_append_of _ _ hp hZ
  have a1 : ∀ (s : Pending) (Z : Bytes), LF ∉ Z →
      SetsPending (ascii "id: " ++ Z ++ [LF]) s { s with ev := { s.ev with ID := Z } } :=
    fun s Z hZ => setsPending_of_stepLine _ _ _ (lit _ (by decide) Z hZ) (stepLine_id_sp s Z)
  have a2 : ∀ (s : Pending) (Z : Bytes), LF ∉ Z →
      SetsPending (ascii "event: " ++ Z ++ [LF]) s { s with ev := { s.ev with Name := Z } } :=
    fun s Z hZ => setsPending_of_stepLine _ _ _ (lit _ (by decide) Z hZ) (stepLine_event_sp s Z)
  have a3 : ∀ (s : Pending) (Z : Bytes), LF ∉ Z →
      SetsPending (ascii ": " ++ Z ++ [LF]) s { s with ev := { s.ev with Comment := Z } } :=
    fun s Z hZ => setsPending_of_stepLine _ _ _ (lit _ (by decide) Z hZ) (stepLine_colon_sp s Z)
  refine ⟨a1 st X hX, a2 st X hX, a3 st X hX, fun hsp => ⟨?_, ?_, ?_⟩, fun Y rest err hY => ⟨?_, ?_, ?_⟩⟩
  · exact setsPending_of_stepLine _ _ _ (lit _ (by decide) X hX) (stepLine_id st X hsp)
  · exact setsPending_of_stepLine _ _ _ (lit _ (by decide) X hX) (stepLine_event st X hsp)
  · exact setsPending_of_stepLine _ _ _ (lit _ (by decide) X hX) (stepLine_colon st X hsp)
  · rw [(a1 st Y hY).2, (a1 _ X hX).2]
  · rw [(a2 st Y hY).2, (a2 _ X hX).2]
  · rw [(a3 st Y hY).2, (a3 _ X hX).2]

/-! ## Data accumulation -/

theorem joinLines_append (a b : List Bytes) : joinLines (a ++ b) = joinLines a ++ joinLines b := by
  induction a with
  | nil => rfl
  | cons x xs ih => simp [joinLines, ih]

theorem runLines_append (a b : List Bytes) :
    ∀ st : Pending, runLines st (a ++ b) =
      ((runLines (runLines st a).1 b).1, (runLines st a).2 ++ (runLines (runLines st a).1 b).2) := by
  induction a with
  | nil => intro st; simp [runLines]
  | cons x xs ih => intro st; simp [runLines, ih]

theorem trimRight_concat_LF (s : Bytes) : trimRight (s ++ [LF]) = trimRight s := by
  simp [trimRight, List.reverse_append, List.dropWhile]

theorem joinLines_eq_intercalate (c : Bytes) (cs : List Bytes) :
    joinLines (c :: cs) = [LF].intercalate (c :: cs) ++ [LF] := by
  induction cs generalizing c with
  | nil => simp [joinLines, List.intercalate, List.intersperse]
  | cons d ds ih =>
    have h := ih d
    simp only [joinLines] at h ⊢
    rw [h]
    simp [List.intercalate, List.intersperse]

theorem trimRight_joinLines (cs : List Bytes) :
    trimRight (joinLines cs) = trimRight ([LF].intercalate cs) := by
  cases cs with
  | nil => rfl
  | cons c cs => rw [joinLines_eq_intercalate, trimRight_concat_LF]

theorem hasPrefix_retry_not_data (l : Bytes) (h : hasPrefix l "retry:" = true) :
    hasPrefix l "data: " = false ∧ hasPrefix l "data:" = false := by
  cases l with
  | nil => simp [hasPrefix, ascii_retry, List.isPrefixOf] at h
  | cons b bs =>
    simp only [hasPrefix, ascii_retry, List.isPrefixOf, Bool.and_eq_true, beq_iff_eq] at h
    have hb : b = 114 := h.1.symm
    subst hb
    simp [hasPrefix, ascii_data_sp, ascii_data, List.isPrefixOf]

/-- A line that begins with `id:`, `event:`, `:` or `retry:` sends nothing and
leaves the data buffer as it was. -/
theorem stepLine_field (st : Pending) (l : Bytes)
    (h : hasPrefix l "id:" = true ∨ hasPrefix l "event:" = true ∨
      hasPrefix l ":" = true ∨ hasPrefix l "retry:" = true) :
    (stepLine st l).2 = [] ∧ (stepLine st l).1.buf = st.buf := by
  unfold stepLine
  by_cases h1 : hasPrefix l "id: " = true
  · rw [if_pos h1]; exact ⟨rfl, rfl⟩
  rw [if_neg h1]
  by_cases h2 : hasPrefix l "id:" = true
  · rw [if_pos h2]; exact ⟨rfl, rfl⟩
  rw [if_neg h2]
  by_cases h3 : hasPrefix l ": " = true
  · rw [if_pos h3]; exact ⟨rfl, rfl⟩
  rw [if_neg h3]
  by_cases h4 : hasPrefix l ":" = true
  · rw [if_pos h4]; exact ⟨rfl, rfl⟩
  rw [if_neg h4]
  by_cases h5 : hasPrefix l "event: " = true
  · rw [if_pos h5]; exact ⟨rfl, rfl⟩
  rw [if_neg h5]
  by_cases h6 : hasPrefix l "event:" = true
  · rw [if_pos h6]; exact ⟨rfl, rfl⟩
  rw [if_neg h6]
  have h9 : hasPrefix l "retry:" = true := by
    rcases h with h | h | h | h
    · exact absurd h h2
    · exact absurd h h6
    · exact absurd h h4
    · exact h
  have hd := hasPrefix_retry_not_data l h9
  rw [if_neg (by simp [hd.1]), if_neg (by simp [hd.2]), if_pos h9]
  exact ⟨rfl, rfl⟩

theorem content_noLF (x : FrameLine) (h : x.wellFormed) : LF ∉ x.content := by
  cases x with
  | data c => exact not_mem_append_of _ _ (by decide) h
  | dataBare c => exact not_mem_append_of _ _ (by decide) h.1
  | field l => exact h.1

/-- The lines of a well-formed frame send nothing and add each data line's
content, with its line feed, to the buffer. -/
theorem runLines_frame (lines : List FrameLine) (hwf : ∀ x ∈ lines, x.wellFormed) :
    ∀ st : Pending,
      (runLines st (lines.map FrameLine.content)).2 = [] ∧
      (runLines st (lines.map FrameLine.content)).1.buf =
        st.buf ++ joinLines (lines.filterMap FrameLine.payload) := by
  induction lines with
  | nil => intro st; simp [runLines, joinLines]
  | cons x xs ih =>
    intro st
    have hx : x.wellFormed := hwf x (by simp)
    have hxs : ∀ y ∈ xs, y.wellFormed := fun y hy => hwf y (by simp [hy])
    simp only [List.map_cons, runLines]
    cases x with
    | data c =>
      have e := stepLine_data_sp st c
      simp only [FrameLine.content, e]
      obtain ⟨i1, i2⟩ := ih hxs { st with buf := st.buf ++ (c ++ [LF]) }
      refine ⟨by simp [i1], ?_⟩
      rw [i2]
      simp [List.filterMap_cons, FrameLine.payload, joinLines]
    | dataBare c =>
      have e := stepLine_data st c hx.2
      simp only [FrameLine.content, e]
      obtain ⟨i1, i2⟩ := ih hxs { st with buf := st.buf ++ (c ++ [LF]) }
      refine ⟨by simp [i1], ?_⟩
      rw [i2]
      simp [List.filterMap_cons, FrameLine.payload, joinLines]
    | field l =>
      obtain ⟨s1, s2⟩ := stepLine_field st l hx.2
      obtain ⟨i1, i2⟩ := ih hxs (stepLine st l).1
      simp only [FrameLine.content]
      refine ⟨by simp [s1, i1], ?_⟩
      rw [i2, s2]
      simp [List.filterMap_cons, FrameLine.payload]

theorem stepLine_blank (st : Pending) (crlf : Bool) :
    stepLine st (if crlf then [CR] else []) =
      ({}, [Item.event { st.ev with Data := trimRight st.buf }]) := by
  cases crlf <;> simp [stepLine, hasPrefix, ascii_id_sp, ascii_id, ascii_colon_sp, ascii_colon,
    ascii_event_sp, ascii_event, ascii_data_sp, ascii_data, ascii_retry, List.isPrefixOf, CR]

theorem blankLine_eq (crlf : Bool) : blankLine crlf = joinLines [if crlf then [CR] else []] := by
  cases crlf <;> simp [blankLine, joinLines]

/-- C1. For every sequence of well-formed frames (data lines `data: c` or bare
`data:c`, interleaved with id, event, comment and retry lines, each frame closed
by a blank line) the parser sends exactly one event per frame, in the order of the
frames, and then the terminal item; the Data of each event is the contents of the
frame's data lines joined by `"\n"` with the trailing `'\r'` and `'\n'` removed,
which is empty for a frame without a data line. -/
theorem readEvents_data (frames : List Frame) (err : GoError)
    (hwf : ∀ f ∈ frames, ∀ x ∈ f.lines, x.wellFormed) :
    ∃ evs : List Event,
      readEvents (wireOf frames) err = .ok (evs.map Item.event ++ [terminal err]) ∧
      evs.map Event.Data = frames.map Frame.expectedData := by
  unfold readEvents
  induction frames with
  | nil =>
    refine ⟨[], ?_, rfl⟩
    simp only [wireOf, List.map_nil, List.nil_append]
    exact readEventsFrom_tail _ [] err (by simp)
  | cons f fs ih =>
    obtain ⟨evs, h1, h2⟩ := ih (fun g hg => hwf g (by simp [hg]))
    have hf : ∀ x ∈ f.lines, x.wellFormed := hwf f (by simp)
    obtain ⟨r1, r2⟩ := runLines_frame f.lines hf {}
    have hls : ∀ l ∈ f.lines.map FrameLine.content ++ [if f.crlf then [CR] else []], LF ∉ l := by
      intro l hl
      rcases List.mem_append.1 hl with h | h
      · obtain ⟨x, hx, rfl⟩ := List.mem_map.1 h
        exact content_noLF x (hf x hx)
      · rw [List.mem_singleton.1 h]
        cases f.crlf <;> simp [CR, LF]
    have hw : wireOf (f :: fs) =
        joinLines (f.lines.map FrameLine.content ++ [if f.crlf then [CR] else []]) ++ wireOf fs := by
      simp only [wireOf, Frame.wire, joinLines_append, blankLine_eq]
    have hrun : runLines {} (f.lines.map FrameLine.content ++ [if f.crlf then [CR] else []]) =
        ({}, [Item.event { (runLines {} (f.lines.map FrameLine.content)).1.ev with
          Data := trimRight (joinLines (f.lines.filterMap FrameLine.payload)) }]) := by
      rw [runLines_append]
      simp only [runLines, stepLine_blank, r1, List.nil_append, List.append_nil, r2]
    refine ⟨{ (runLines {} (f.lines.map FrameLine.content)).1.ev with
      Data := trimRight (joinLines (f.lines.filterMap FrameLine.payload)) } :: evs, ?_, ?_⟩
    · rw [hw, readEventsFrom_lines _ hls, hrun, h1]
      simp
    · simp only [List.map_cons, h2, Frame.expectedData, trimRight_joinLines]

/-! ## Unrecognized lines and the terminal item -/

/-- The three outcomes of the switch on a complete line: nothing is sent, or the
line is blank and the pending event is sent, or the line is unrecognized and an
error is sent with the accumulator unchanged. -/
theorem stepLine_cases (st : Pending) (l : Bytes) :
    (stepLine st l).2 = [] ∨
    ((l = [] ∨ l = [CR]) ∧
      stepLine st l = ({}, [Item.event { st.ev with Data := trimRight st.buf }])) ∨
    (unrecognized (l ++ [LF]) ∧ stepLine st l = (st, [unknownEvent (l ++ [LF])])) := by
  unfold stepLine
  by_cases h1 : hasPrefix l "id: " = true
  · rw [if_pos h1]; exact Or.inl rfl
  rw [if_neg h1]
  by_cases h2 : hasPrefix l "id:" = true
  · rw [if_pos h2]; exact Or.inl rfl
  rw [if_neg h2]
  by_cases h3 : hasPrefix l ": " = true
  · rw [if_pos h3]; exact Or.inl rfl
  rw [if_neg h3]
  by_cases h4 : hasPrefix l ":" = true
  · rw [if_pos h4]; exact Or.inl rfl
  rw [if_neg h4]
  by_cases h5 : hasPrefix l "event: " = true
  · rw [if_pos h5]; exact Or.inl rfl
  rw [if_neg h5]
  by_cases h6 : hasPrefix l "event:" = true
  · rw [if_pos h6]; exact Or.inl rfl
  rw [if_neg h6]
  by_cases h7 : hasPrefix l "data: " = true
  · rw [if_pos h7]; exact Or.inl rfl
  rw [if_neg h7]
  by_cases h8 : hasPrefix l "data:" = true
  · rw [if_pos h8]; exact Or.inl rfl
  rw [if_neg h8]
  by_cases h9 : hasPrefix l "retry:" = true
  · rw [if_pos h9]; exact Or.inl rfl
  rw [if_neg h9]
  by_cases h10 : l = [] ∨ l = [CR]
  · rw [if_pos h10]; exact Or.inr (Or.inl ⟨h10, rfl⟩)
  rw [if_neg h10]
  refine Or.inr (Or.inr ⟨?_, rfl⟩)
  have e1 : l ++ [LF] ≠ [LF] := fun e =>
    h10 (Or.inl (List.append_cancel_right (show l ++ [LF] = [] ++ [LF] from e)))
  have e2 : l ++ [LF] ≠ [CR, LF] := fun e =>
    h10 (Or.inr (List.append_cancel_right (show l ++ [LF] = [CR] ++ [LF] from e)))
  refine ⟨e1, e2, ?_, ?_, ?_, ?_, ?_⟩
  · rw [hasPrefix_line l _ (by decide)]; exact Bool.eq_false_iff.2 h2
  · rw [hasPrefix_line l _ (by decide)]; exact Bool.eq_false_iff.2 h4
  · rw [hasPrefix_line l _ (by decide)]; exact Bool.eq_false_iff.2 h6
  · rw [hasPrefix_line l _ (by decide)]; exact Bool.eq_false_iff.2 h8
  · rw [hasPrefix_line l _ (by decide)]; exact Bool.eq_false_iff.2 h9

theorem hasPrefix_mono (l : Bytes) (p q : String) (hpq : ascii p <+: ascii q)
    (h : hasPrefix l p = false) : hasPrefix l q = false := by
  rw [Bool.eq_false_iff] at h ⊢
  intro hq
  exact h ((hasPrefix_iff l p).2 (hpq.trans ((hasPrefix_iff l q).1 hq)))

/-- An unrecognized line takes the default branch of the switch. -/
theorem stepLine_unrecognized (st : Pending) (l : Bytes) (h : unrecognized (l ++ [LF])) :
    stepLine st l = (st, [unknownEvent (l ++ [LF])]) := by
  obtain ⟨e1, e2, p1, p2, p3, p4, p5⟩ := h
  rw [hasPrefix_line l _ (by decide)] at p1 p2 p3 p4 p5
  have q1 := hasPrefix_mono l "id:" "id: " (by decide) p1
  have q2 := hasPrefix_mono l ":" ": " (by decide) p2
  have q3 := hasPrefix_mono l "event:" "event: " (by decide) p3
  have q4 := hasPrefix_mono l "data:" "data: " (by decide) p4
  have n1 : ¬ (l = [] ∨ l = [CR]) := by
    rintro (e | e)
    · exact e1 (by rw [e]; rfl)
    · exact e2 (by rw [e]; rfl)
  simp only [stepLine, p1, p2, p3, p4, p5, q1, q2, q3, q4, n1, if_false, Bool.false_eq_true,
    unknownEvent]

theorem runLines_items (ls : List Bytes) :
    ∀ (st : Pending) (i : Item), i ∈ (runLines st ls).2 →
      (∃ ev, i = Item.event ev) ∨ (∃ line, i = unknownEvent line) := by
  induction ls with
  | nil => intro st i hi; simp [runLines] at hi
  | cons l ls ih =>
    intro st i hi
    simp only [runLines, List.mem_append] at hi
    rcases hi with hi | hi
    · rcases stepLine_cases st l with h | ⟨_, h⟩ | ⟨_, h⟩
      · rw [h] at hi; simp at hi
      · rw [h] at hi
        exact Or.inl ⟨_, List.mem_singleton.1 hi⟩
      · rw [h] at hi
        exact Or.inr ⟨_, List.mem_singleton.1 hi⟩
    · exact ih _ i hi

/-- The parser on any input: a body of events and of errors of the default branch
that does not depend on how the read ends, then the terminal item of the read
error. -/
theorem readEvents_body (input : Bytes) :
    ∃ body : List Item,
      (∀ i ∈ body, (∃ ev, i = Item.event ev) ∨ (∃ line, i = unknownEvent line)) ∧
      ∀ err : GoError, readEvents input err = .ok (body ++ [terminal err]) := by
  obtain ⟨ls, p, hls, hp, rfl⟩ := input_lines input
  refine ⟨(runLines {} ls).2, fun i hi => runLines_items ls {} i hi, fun err => ?_⟩
  unfold readEvents
  rw [readEventsFrom_lines ls hls, readEventsFrom_tail _ p err hp]

/-- C5. An unrecognized complete line `L` is answered with one error item, whose
message (the value of its `Error()`) is `"unknown event: "` followed by `L`, with
the pending event and the buffer unchanged; parsing goes on, so for
`pre ++ L ++ post` (with `pre` made of complete lines) the items are those for
`pre ++ post` with that one error item put after the items of `pre`; and a
line that is not unrecognized (blank, or with a recognized start) sends no
error item. -/
theorem readEvents_unrecognized (pre : List Bytes) (l post : Bytes) (err : GoError)
    (hpre : ∀ x ∈ pre, LF ∉ x) (hl : LF ∉ l) (hun : unrecognized (l ++ [LF])) :
    ∃ e : GoError,
      e.Error = ascii "unknown event: " ++ (l ++ [LF]) ∧
      e.isEOF = false ∧
      (∀ st : Pending, processLine st (l ++ [LF]) = .ok (st, [Item.error e])) ∧
      (∃ a b : List Item,
        readEvents (joinLines pre) err = .ok (a ++ [terminal err]) ∧
        readEvents (joinLines pre ++ post) err = .ok (a ++ b) ∧
        readEvents (joinLines pre ++ (l ++ [LF]) ++ post) err = .ok (a ++ Item.error e :: b)) ∧
      (∀ (st : Pending) (l2 : Bytes), ¬ unrecognized (l2 ++ [LF]) →
        ∃ st1 items, processLine st (l2 ++ [LF]) = .ok (st1, items) ∧
          ∀ i ∈ items, i.isError = false) := by
  have hstep : ∀ st : Pending, stepLine st l = (st, [Item.error (errorsNew
      (ascii "unknown event: " ++ (l ++ [LF])))]) := fun st => stepLine_unrecognized st l hun
  refine ⟨errorsNew (ascii "unknown event: " ++ (l ++ [LF])), rfl, rfl,
    fun st => by rw [processLine_line, hstep st], ?_, ?_⟩
  · obtain ⟨b, hb⟩ := readEventsFrom_total (runLines {} pre).1 post err
    refine ⟨(runLines {} pre).2, b ++ [terminal err], ?_, ?_, ?_⟩
    · have h := readEventsFrom_lines pre hpre {} [] err
      rw [List.append_nil, readEventsFrom_tail _ [] err (by simp)] at h
      exact h
    · unfold readEvents
      rw [readEventsFrom_lines pre hpre, hb]
    · unfold readEvents
      have hls : ∀ x ∈ pre ++ [l], LF ∉ x := by
        intro x hx
        rcases List.mem_append.1 hx with h | h
        · exact hpre x h
        · rw [List.mem_singleton.1 h]; exact hl
      have e : joinLines pre ++ (l ++ [LF]) ++ post = joinLines (pre ++ [l]) ++ post := by
        simp [joinLines_append, joinLines]
      rw [e, readEventsFrom_lines _ hls, runLines_append]
      simp only [runLines, hstep, hb, List.append_nil]
      simp
  · intro st l2 h2
    refine ⟨(stepLine st l2).1, (stepLine st l2).2, by rw [processLine_line], ?_⟩
    intro i hi
    rcases stepLine_cases st l2 with h | ⟨_, h⟩ | ⟨hu, _⟩
    · rw [h] at hi; simp at hi
    · rw [h] at hi
      rw [List.mem_singleton.1 hi]; rfl
    · exact absurd hu h2

/-- C6. On every finite input the parser returns, and what it sends is a body of
events and `unknown event` errors, the same however the read ends, followed by
exactly one terminal item, after which nothing is sent. When the read ends with
`io.EOF` the terminal item is the stream-closed signal `closeChan <- -1`, which
is no error item; when it ends with an error that is not `io.EOF` the terminal
item is that error on the error channel. -/
theorem readEvents_terminal (input : Bytes) :
    ∃ body : List Item,
      (∀ i ∈ body, (∃ ev, i = Item.event ev) ∨ (∃ line, i = unknownEvent line)) ∧
      readEvents input .eof = .ok (body ++ [Item.close (-1)]) ∧
      (Item.close (-1)).isError = false ∧
      (∀ msg : Bytes, readEvents input (.other msg) = .ok (body ++ [Item.error (.other msg)])) ∧
      (∀ msg : Bytes,
        readEvents input (.errorString msg) = .ok (body ++ [Item.error (.errorString msg)])) ∧
      (∀ err : GoError, err.isEOF = true →
        readEvents input err = .ok (body ++ [Item.close (-1)])) ∧
      (∀ err : GoError, err.isEOF = false →
        readEvents input err = .ok (body ++ [Item.error err])) := by
  obtain ⟨body, hbody, h⟩ := readEvents_body input
  refine ⟨body, hbody, ?_, rfl, fun msg => ?_, fun msg => ?_, fun err he => ?_, fun err he => ?_⟩
  · rw [h]; rfl
  · rw [h]; rfl
  · rw [h]; rfl
  · rw [h, terminal, if_pos he]
  · rw [h, terminal, if_neg (by simp [he])]

/-- C3. After a blank line the parser starts afresh: for an input `s1` of complete
lines that ends with a blank line (`"\n"` or `"\r\n"`) and any input `s2`, the
items for `s1 ++ s2` are the non-terminal items for `s1` followed by the items
for `s2`, so no field of an earlier frame reaches a later event. -/
theorem readEvents_frame_reset (ls : List Bytes) (crlf : Bool) (s2 : Bytes) (err1 err : GoError)
    (hls : ∀ l ∈ ls, LF ∉ l) :
    ∃ items1 items2 : List Item,
      readEvents (joinLines ls ++ blankLine crlf) err1 = .ok (items1 ++ [terminal err1]) ∧
      readEvents s2 err = .ok items2 ∧
      readEvents (joinLines ls ++ blankLine crlf ++ s2) err = .ok (items1 ++ items2) := by
  have hls2 : ∀ x ∈ ls ++ [if crlf then [CR] else []], LF ∉ x := by
    intro x hx
    rcases List.mem_append.1 hx with h | h
    · exact hls x h
    · rw [List.mem_singleton.1 h]
      cases crlf <;> simp [CR, LF]
  have e : joinLines ls ++ blankLine crlf = joinLines (ls ++ [if crlf then [CR] else []]) := by
    rw [joinLines_append, blankLine_eq]
  have hrun : (runLines {} (ls ++ [if crlf then [CR] else []])).1 = {} := by
    rw [runLines_append]
    simp only [runLines, stepLine_blank]
  obtain ⟨b, hb⟩ := readEventsFrom_total {} s2 err
  refine ⟨(runLines {} (ls ++ [if crlf then [CR] else []])).2, b ++ [terminal err], ?_, hb, ?_⟩
  · have h := readEventsFrom_lines _ hls2 {} [] err1
    rw [List.append_nil, readEventsFrom_tail _ [] err1 (by simp)] at h
    rw [e]
    exact h
  · unfold readEvents
    rw [e, readEventsFrom_lines _ hls2, hrun, hb]

/-! ## Examples and line terminators -/

/-- C1 at the frames of the test server: the hypothesis holds and the two events
carry the joined data. -/
theorem readEvents_data_witness :
    (∀ f ∈ testFrames, ∀ x ∈ f.lines, x.wellFormed) ∧
    ∃ evs : List Event,
      readEvents (wireOf testFrames) .eof = .ok (evs.map Item.event ++ [terminal .eof]) ∧
      evs.map Event.Data =
        [ascii "\x7b\"ping\": \"pong\"\x7d\n\x7b\"hello\": \"sse\"\x7d", ascii "\x7b\"hello\": \"sse\"\x7d"] :=
  ⟨by decide, readEvents_data testFrames .eof (by decide)⟩

/-- C2 at `X = "ABCD"`, from the empty accumulator. -/
theorem readEvents_field_lines_witness :
    LF ∉ ascii "ABCD" ∧ (ascii "ABCD").head? ≠ some SP ∧
    SetsPending (ascii "id: " ++ ascii "ABCD" ++ [LF]) {} { ev := { ID := ascii "ABCD" } } ∧
    SetsPending (ascii "event:" ++ ascii "ABCD" ++ [LF]) {} { ev := { Name := ascii "ABCD" } } :=
  ⟨by decide, by decide,
    (readEvents_field_lines {} (ascii "ABCD") (by decide)).1,
    ((readEvents_field_lines {} (ascii "ABCD") (by decide)).2.2.2.1 (by decide)).2.1⟩

/-- C3 at the two frames of the spec's examples: the second event has an empty ID
although the first frame set one. -/
theorem readEvents_frame_reset_witness :
    (∀ l ∈ [ascii "id: ABCD", ascii "data: \x7b\"a\":1\x7d"], LF ∉ l) ∧
    (∃ items1 items2 : List Item,
      readEvents (joinLines [ascii "id: ABCD", ascii "data: \x7b\"a\":1\x7d"] ++ blankLine false) .eof =
        .ok (items1 ++ [terminal .eof]) ∧
      readEvents (ascii "event: EFGH\ndata: \x7b\"c\":3\x7d\n\n") .eof = .ok items2 ∧
      readEvents (joinLines [ascii "id: ABCD", ascii "data: \x7b\"a\":1\x7d"] ++ blankLine false ++
        ascii "event: EFGH\ndata: \x7b\"c\":3\x7d\n\n") .eof = .ok (items1 ++ items2)) ∧
    readEvents (ascii "id: ABCD\ndata: \x7b\"a\":1\x7d\n\nevent: EFGH\ndata: \x7b\"c\":3\x7d\n\n") .eof =
      .ok [Item.event { ID := ascii "ABCD", Data := ascii "\x7b\"a\":1\x7d" },
        Item.event { ID := [], Name := ascii "EFGH", Data := ascii "\x7b\"c\":3\x7d" },
        Item.close (-1)] :=
  ⟨by decide,
    readEvents_frame_reset [ascii "id: ABCD", ascii "data: \x7b\"a\":1\x7d"] false
      (ascii "event: EFGH\ndata: \x7b\"c\":3\x7d\n\n") .eof .eof (by decide),
    rfl⟩

/-- C5 at the line `junk` of the test server, between two frames: the error item
has the message `unknown event: junk` with the line feed of the line. -/
theorem readEvents_unrecognized_witness :
    (∀ x ∈ [ascii "id: 1", ascii ""], LF ∉ x) ∧ LF ∉ ascii "junk" ∧
    unrecognized (ascii "junk" ++ [LF]) ∧
    (∃ e : GoError,
      e.Error = ascii "unknown event: " ++ (ascii "junk" ++ [LF]) ∧
      e.isEOF = false ∧
      (∀ st : Pending, processLine st (ascii "junk" ++ [LF]) = .ok (st, [Item.error e])) ∧
      (∃ a b : List Item,
        readEvents (joinLines [ascii "id: 1", ascii ""]) .eof = .ok (a ++ [terminal .eof]) ∧
        readEvents (joinLines [ascii "id: 1", ascii ""] ++ ascii "id: 2\n\n") .eof =
          .ok (a ++ b) ∧
        readEvents (joinLines [ascii "id: 1", ascii ""] ++ (ascii "junk" ++ [LF]) ++
          ascii "id: 2\n\n") .eof = .ok (a ++ Item.error e :: b)) ∧
      (∀ (st : Pending) (l2 : Bytes), ¬ unrecognized (l2 ++ [LF]) →
        ∃ st1 items, processLine st (l2 ++ [LF]) = .ok (st1, items) ∧
          ∀ i ∈ items, i.isError = false)) ∧
    (∃ e : GoError,
      e.Error = ascii "unknown event: junk\n" ∧
      readEvents (ascii "id: 1\n\njunk\nid: 2\n\n") .eof =
        .ok [Item.event { ID := ascii "1" }, Item.error e, Item.event { ID := ascii "2" },
          Item.close (-1)]) :=
  ⟨by decide, by decide, by decide,
    readEvents_unrecognized [ascii "id: 1", ascii ""] (ascii "junk") (ascii "id: 2\n\n") .eof
      (by decide) (by decide) (by decide),
    ⟨.errorString (ascii "unknown event: junk\n"), rfl, rfl⟩⟩

/-- C6 at a stream with one frame, one unrecognized line and an unterminated
tail: `io.EOF` satisfies `errors.Is(err, io.EOF)` and the items end with the
stream-closed signal; a connection reset does not and the items end with that
error. -/
theorem readEvents_terminal_witness :
    GoError.isEOF .eof = true ∧
    GoError.isEOF (.other (ascii "connection reset by peer")) = false ∧
    readEvents (ascii "id: 1\n\njunk\nid: 2") .eof =
      .ok [Item.event { ID := ascii "1" },
        Item.error (.errorString (ascii "unknown event: junk\n")), Item.close (-1)] ∧
    readEvents (ascii "id: 1\n\njunk\nid: 2") (.other (ascii "connection reset by peer")) =
      .ok [Item.event { ID := ascii "1" },
        Item.error (.errorString (ascii "unknown event: junk\n")),
        Item.error (.other (ascii "connection reset by peer"))] ∧
    readEvents [] .eof = .ok [Item.close (-1)] ∧
    (∃ body : List Item,
      (∀ i ∈ body, (∃ ev, i = Item.event ev) ∨ (∃ line, i = unknownEvent line)) ∧
      readEvents (ascii "id: 1\n\njunk\nid: 2") .eof = .ok (body ++ [Item.close (-1)]) ∧
      (Item.close (-1)).isError = false ∧
      (∀ msg : Bytes, readEvents (ascii "id: 1\n\njunk\nid: 2") (.other msg) =
        .ok (body ++ [Item.error (.other msg)])) ∧
      (∀ msg : Bytes, readEvents (ascii "id: 1\n\njunk\nid: 2") (.errorString msg) =
        .ok (body ++ [Item.error (.errorString msg)])) ∧
      (∀ err : GoError, err.isEOF = true →
        readEvents (ascii "id: 1\n\njunk\nid: 2") err = .ok (body ++ [Item.close (-1)])) ∧
      (∀ err : GoError, err.isEOF = false →
        readEvents (ascii "id: 1\n\njunk\nid: 2") err = .ok (body ++ [Item.error err]))) :=
  ⟨rfl, rfl, rfl, rfl, rfl, readEvents_terminal (ascii "id: 1\n\njunk\nid: 2")⟩

/-- C4 fails on the code. `stripPrefix` removes only the final `'\n'` of a line,
so with `"\r\n"` terminators the ID (like the Name and the Comment) keeps a
trailing `'\r'`, and two data lines are joined by `"\r\n"`: the events read from
lines terminated by `"\r\n"` differ from those read from the same lines
terminated by `"\n"`. -/
theorem readEvents_crlf_differs :
    eventsRead (terminated [CR, LF] [ascii "id: A", []]) = [{ ID := ascii "A\r" }] ∧
    eventsRead (terminated [LF] [ascii "id: A", []]) = [{ ID := ascii "A" }] ∧
    eventsRead (terminated [CR, LF] [ascii "data: x", ascii "data: y", []]) =
      [{ Data := ascii "x\r\ny" }] ∧
    eventsRead (terminated [LF] [ascii "data: x", ascii "data: y", []]) =
      [{ Data := ascii "x\ny" }] ∧
    ¬ (∀ ls : List Bytes, (∀ l ∈ ls, CR ∉ l ∧ LF ∉ l) →
        eventsRead (terminated [CR, LF] ls) = eventsRead (terminated [LF] ls)) := by
  refine ⟨rfl, rfl, rfl, rfl, fun h => ?_⟩
  have h2 := h [ascii "id: A", []] (by decide)
  have e1 : eventsRead (terminated [CR, LF] [ascii "id: A", []]) = [{ ID := ascii "A\r" }] := rfl
  have e2 : eventsRead (terminated [LF] [ascii "id: A", []]) = [{ ID := ascii "A" }] := rfl
  rw [e1, e2] at h2
  exact absurd h2 (by decide)

/-! ## The handler registry -/

theorem callHandlers_ok (args : List Value) (hs : List Callable) :
    ∀ c : Client, (∀ f ∈ hs, f.throws = none) →
      callHandlers args hs c =
        (.ok (), { c with trace := c.trace ++ hs.map fun f => Effect.call f args }) := by
  induction hs with
  | nil => intro c _; simp [callHandlers]
  | cons h hs ih =>
    intro c hok
    have h1 : h.throws = none := hok h (by simp)
    have h2 : ∀ f ∈ hs, f.throws = none := fun f hf => hok f (by simp [hf])
    simp [callHandlers, h1, ih _ h2, Client.log]

theorem register_trace (kind : String) (hs : List Callable) :
    ∀ c : Client, (register c kind hs).trace = c.trace := by
  induction hs with
  | nil => intro c; rfl
  | cons h hs ih => intro c; simp [register, ih, On, assertFunction]

theorem register_other (kind : String) (hs : List Callable) :
    ∀ (c : Client) (k : String), k ≠ kind →
      (register c kind hs).eventHandlers k = c.eventHandlers k := by
  induction hs with
  | nil => intro c k _; rfl
  | cons h hs ih =>
    intro c k hk
    simp [register, ih _ k hk, On, assertFunction, hk]

theorem register_kind (kind : String) (hs : List Callable) :
    ∀ c : Client, ((register c kind hs).eventHandlers kind).getD [] =
      (c.eventHandlers kind).getD [] ++ hs := by
  induction hs with
  | nil => intro c; simp [register]
  | cons h hs ih =>
    intro c
    simp [register, ih, On, assertFunction]

/-- C8. `On(kind, h)` with a callable `h` puts `h` at the end of the handlers of
`kind`, whether or not it is there already, leaves the handlers of every other
kind as they were and calls nothing; after `h1..hn` are registered for `kind` in
this order, `handleEvent` for `kind` calls the handlers of `kind` (those already
there, then `h1..hn`) in order, each once with the given arguments, and nothing
else, provided none of them fails. -/
theorem On_handleEvent_order (c : Client) (kind : String) (h : Callable) (hs : List Callable)
    (args : List Value)
    (hok : ∀ f ∈ (c.eventHandlers kind).getD [] ++ hs, f.throws = none) :
    (On c kind (.function h)).eventHandlers kind =
      some ((c.eventHandlers kind).getD [] ++ [h]) ∧
    (∀ k : String, k ≠ kind → (On c kind (.function h)).eventHandlers k = c.eventHandlers k) ∧
    (On c kind (.function h)).trace = c.trace ∧
    ((register c kind hs).eventHandlers kind).getD [] = (c.eventHandlers kind).getD [] ++ hs ∧
    (∀ k : String, k ≠ kind → (register c kind hs).eventHandlers k = c.eventHandlers k) ∧
    handleEvent (register c kind hs) kind args =
      (.ok (), { register c kind hs with
        trace := c.trace ++
          ((c.eventHandlers kind).getD [] ++ hs).map fun f => Effect.call f args }) := by
  refine ⟨by simp [On, assertFunction], fun k hk => by simp [On, assertFunction, hk],
    by simp [On, assertFunction], register_kind kind hs c, register_other kind hs c, ?_⟩
  have hk := register_kind kind hs c
  have ht := register_trace kind hs c
  unfold handleEvent
  cases hreg : (register c kind hs).eventHandlers kind with
  | none =>
    rw [hreg] at hk
    simp only [Option.getD_none] at hk
    simp [← hk, ← ht]
  | some l =>
    rw [hreg] at hk
    simp only [Option.getD_some] at hk
    rw [← hk] at hok ⊢
    simp only [callHandlers_ok args l _ hok, ht]

/-- C8 at the two "error" handlers the test registers: both are called, in the
order of registration. -/
theorem On_handleEvent_order_witness :
    (∀ f ∈ ((({} : Client).eventHandlers "error").getD [] ++
        [({ id := 1 } : Callable), { id := 2 }]), f.throws = none) ∧
    (handleEvent (register {} "error" [{ id := 1 }, { id := 2 }]) "error"
        [.goError .eof]).2.trace =
      [.call { id := 1 } [.goError .eof], .call { id := 2 } [.goError .eof]] :=
  ⟨by decide, by
    rw [(On_handleEvent_order {} "error" { id := 1 } [{ id := 1 }, { id := 2 }]
      [.goError .eof] (by decide)).2.2.2.2.2]
    rfl⟩

/-! ## Close -/

/-- Once `shutdownOnce` has run, `Close` only cancels the request and returns nil. -/
theorem Close_of_shutdown (c : Client) (h : c.shutdownOnce = true) :
    Close c = (.ok none, c.log .cancelRequest) := by
  simp [Close, closeResponseBody, h]

theorem closeTimes_of_shutdown (n : Nat) :
    ∀ c : Client, c.shutdownOnce = true →
      (closeTimes n c).doneClosed = c.doneClosed ∧
      (closeTimes n c).trace = c.trace ++ List.replicate n Effect.cancelRequest := by
  induction n with
  | zero => intro c _; simp [closeTimes]
  | succ n ih =>
    intro c h
    have h2 := ih (c.log .cancelRequest) (by simpa [Client.log] using h)
    simp only [closeTimes, Close_of_shutdown c h]
    refine ⟨by simpa [Client.log] using h2.1, ?_⟩
    rw [h2.2]
    simp [Client.log, List.replicate_succ]

/-- The calls of the "error" handlers made when the body close returns `err`. -/
theorem handleEvent_ok (c : Client) (event : String) (args : List Value)
    (hok : ∀ f ∈ (c.eventHandlers event).getD [], f.throws = none) :
    handleEvent c event args =
      (.ok (), { c with trace := c.trace ++
        ((c.eventHandlers event).getD []).map fun f => Effect.call f args }) := by
  unfold handleEvent
  cases h : c.eventHandlers event with
  | none => simp
  | some l =>
    rw [h] at hok
    simp only [Option.getD_some] at hok ⊢
    rw [callHandlers_ok args l c hok]

/-- The first `Close` of a session releases it when no "error" handler fails on a
body-close error: the body is closed, the handlers are told of the error, `done`
is closed and the request is cancelled; the later calls only cancel the request. -/
theorem Close_once (c : Client) (resp : Response) (n : Nat)
    (hresp : c.resp = some resp) (honce : c.shutdownOnce = false) (hdone : c.doneClosed = false)
    (hok : ∀ f ∈ (c.eventHandlers "error").getD [], f.throws = none) :
    (Close c).1 = .ok resp.closeErr ∧
    (closeTimes (n + 1) c).doneClosed = true ∧
    (closeTimes (n + 1) c).trace =
      c.trace ++ [Effect.bodyClose] ++
        (match resp.closeErr with
          | some e => ((c.eventHandlers "error").getD []).map fun f => Effect.call f [.goError e]
          | none => []) ++
        [Effect.closeDone] ++ List.replicate (n + 1) Effect.cancelRequest := by
  have hlog : ∀ f ∈ ((c.log .bodyClose).eventHandlers "error").getD [], f.throws = none := hok
  have key : Close c = (.ok resp.closeErr,
      { c with
        doneClosed := true, shutdownOnce := true,
        trace := c.trace ++ [Effect.bodyClose] ++
          (match resp.closeErr with
            | some e => ((c.eventHandlers "error").getD []).map fun f => Effect.call f [.goError e]
            | none => []) ++
          [Effect.closeDone] ++ [Effect.cancelRequest] }) := by
    cases he : resp.closeErr with
    | none =>
      simp [Close, closeResponseBody, honce, hresp, he, hdone, Client.log]
    | some e =>
      have hh := handleEvent_ok (c.log .bodyClose) "error" [.goError e] hlog
      unfold Close closeResponseBody
      simp only [honce, hresp, he, Bool.false_eq_true, if_false, hh]
      simp [Client.log, hdone, hresp]
  refine ⟨by rw [key], ?_⟩
  obtain ⟨a, b⟩ := closeTimes_of_shutdown n (Close c).2 (by rw [key])
  simp only [closeTimes]
  rw [a, b, key]
  refine ⟨rfl, ?_⟩
  simp [List.replicate_succ]

/-- C7 fails on the code for a session whose body close returns an error and
whose "error" handler throws: the first `Close` closes the body, calls the
handler and panics with its error before `close(c.done)`; every later `Close`
returns nil and only cancels the request, so after any number of calls the body
is closed once and `done` is never closed. -/
theorem Close_throwing_handler :
    (Close failingClient).1 = .error (.throw (.other (ascii "boom"))) ∧
    (Close (Close failingClient).2).1 = .ok none ∧
    (closeTimes 2 failingClient).trace =
      [.bodyClose, .call throwingHandler [.goError (.other (ascii "close failed"))],
        .cancelRequest] ∧
    (∀ n : Nat, 1 ≤ n →
      (closeTimes n failingClient).doneClosed = false ∧
      Effect.closeDone ∉ (closeTimes n failingClient).trace ∧
      ((closeTimes n failingClient).trace.filter (· == Effect.bodyClose)).length = 1) := by
  have h1 : (Close failingClient).2.shutdownOnce = true := rfl
  have h2 : (Close failingClient).2.doneClosed = false := rfl
  have h3 : (Close failingClient).2.trace =
      [.bodyClose, .call throwingHandler [.goError (.other (ascii "close failed"))]] := rfl
  refine ⟨rfl, rfl, rfl, fun n hn => ?_⟩
  obtain ⟨m, rfl⟩ : ∃ m, n = m + 1 := ⟨n - 1, by omega⟩
  obtain ⟨a, b⟩ := closeTimes_of_shutdown m _ h1
  simp only [closeTimes]
  rw [a, b, h2, h3]
  refine ⟨rfl, ?_, ?_⟩
  · simp [List.mem_replicate]
  · simp [List.filter_append, List.filter_replicate]

/-! ## Open when the connection attempt fails -/

/-- C9. When `httpClient.Do` returns an error `err`, `Open` with the throw option
off returns, without error, a response whose Error is `err`'s message, which is
not empty, and whose URL, Status and Headers are empty; with the throw option on
it returns no response and `err` itself; in both cases the setup callback is not
called and the parser and the control loop are not started: the only side
effects are the two pushes of samples (none when the context is done). -/
theorem Open_connect_failure (st : State) (url : String) (setupFn : SetupFn) (ctxDone : Bool)
    (resp : Option Response) (err : UrlError) (schedule : List Signal) :
    ∃ c : Client,
      Open (some st) url (.ok setupFn) ctxDone (.roundTrip resp (some err)) schedule =
        (if st.Throw then OpenReturn.ret none (some err.toError)
          else OpenReturn.ret
            (some { URL := "", Status := 0, Headers := [], Error := err.toError.Error }) none,
          some c) ∧
      err.toError.Error ≠ [] ∧
      c.trace = (if ctxDone then [] else [.push connSamples, .push endSamples]) ∧
      Effect.setup ∉ c.trace ∧ Effect.goReadEvents ∉ c.trace := by
  have hmsg : err.toError.Error ≠ [] := by
    simp [UrlError.toError, GoError.Error, quoteASCII]
  cases hs : st.Throw <;> cases ctxDone <;> cases resp <;>
    simp [Open, miOpen, openBody, handleEvent, pushIfNotDone, Client.log, wrapHTTPResponse,
      hs, hmsg]

/-- C9 at the connect error of the URL `INVALID`, with the throw option off. -/
theorem Open_connect_failure_witness :
    (Open (some { Throw := false }) "INVALID" (.ok errorSetup) false
        (.roundTrip none (some connectError)) []).1 =
      OpenReturn.ret
        (some { URL := "", Status := 0, Headers := [],
                Error := ascii "Get \"INVALID\": unsupported protocol scheme \"\"" }) none := by
  obtain ⟨c, h, _⟩ := Open_connect_failure ({ Throw := false } : State) "INVALID" errorSetup
    false none connectError []
  rw [h]
  rfl

/-- When `httpClient.Do` returns an error, the only side effects of `Open` are
the two pushes of samples. -/
theorem Open_connect_failure_trace (st : State) (url : String) (setupFn : SetupFn)
    (ctxDone : Bool) (resp : Option Response) (err : UrlError) (schedule : List Signal) :
    ∃ (r : OpenReturn) (c : Client),
      Open (some st) url (.ok setupFn) ctxDone (.roundTrip resp (some err)) schedule =
        (r, some c) ∧
      c.trace = (if ctxDone then [] else [.push connSamples, .push endSamples]) := by
  have hmsg : err.toError.Error ≠ [] := by
    simp [UrlError.toError, GoError.Error, quoteASCII]
  cases hs : st.Throw <;> cases ctxDone <;> cases resp <;>
    simp [Open, miOpen, openBody, handleEvent, pushIfNotDone, Client.log, wrapHTTPResponse,
      hs, hmsg] <;>
    exact ⟨_, _, ⟨rfl, rfl⟩, rfl⟩

/-- C10 fails on the code. The setup callback, which is what registers the
handlers, runs only after a successful connect, so when the connection attempt
fails the registry is empty and `handleEvent("error", err)` calls nothing: the
"error" handler of the setup callback is called zero times, whatever the
callback, the throw option and the schedule are. -/
theorem Open_connect_failure_calls_nothing :
    (Open (some { Throw := false }) "INVALID" (.ok errorSetup) false
        (.roundTrip none (some connectError)) []).1 =
      OpenReturn.ret (some { Error := connectError.toError.Error }) none ∧
    (Open (some { Throw := false }) "INVALID" (.ok errorSetup) false
        (.roundTrip none (some connectError)) []).2.map Client.trace =
      some [.push connSamples, .push endSamples] ∧
    (∀ (st : State) (url : String) (setupFn : SetupFn) (ctxDone : Bool) (resp : Option Response)
        (err : UrlError) (schedule : List Signal) (c : Client),
      (Open (some st) url (.ok setupFn) ctxDone (.roundTrip resp (some err)) schedule).2 = some c →
        ∀ (f : Callable) (args : List Value), Effect.call f args ∉ c.trace) := by
  refine ⟨rfl, rfl, ?_⟩
  intro st url setupFn ctxDone resp err schedule c h f args
  obtain ⟨r, c1, h1, ht⟩ := Open_connect_failure_trace st url setupFn ctxDone resp err schedule
  rw [h1] at h
  have hc : c1 = c := Option.some.inj h
  rw [← hc, ht]
  cases ctxDone <;> simp

/-! ## Unterminated input and slice bounds -/

theorem terminal_not_event (err : GoError) : (terminal err).isEvent = false := by
  unfold terminal
  cases err.isEOF <;> rfl

/-- Lines none of which is blank send no event. -/
theorem runLines_no_event (ls : List Bytes) (hnb : ∀ l ∈ ls, l ≠ [] ∧ l ≠ [CR]) :
    ∀ (st : Pending) (i : Item), i ∈ (runLines st ls).2 → i.isEvent = false := by
  induction ls with
  | nil => intro st i hi; simp [runLines] at hi
  | cons l ls ih =>
    intro st i hi
    have hl := hnb l (by simp)
    simp only [runLines, List.mem_append] at hi
    rcases hi with hi | hi
    · rcases stepLine_cases st l with h | ⟨hb, _⟩ | ⟨_, h⟩
      · rw [h] at hi; simp at hi
      · rcases hb with hb | hb
        · exact absurd hb hl.1
        · exact absurd hb hl.2
      · rw [h] at hi
        rw [List.mem_singleton.1 hi]; rfl
    · exact ih (fun x hx => hnb x (by simp [hx])) _ i hi

/-- C16. Bytes after the last line feed are dropped: for an input `s` of complete
lines and `p` without a line feed, the parser sends for `s ++ p` exactly what it
sends for `s`; and the lines after the last blank line, fields of a frame that
is not closed before the end of the input, send no event: the items are those
of the lines before, then items that are not events, then the terminal item. -/
theorem readEvents_unterminated (ls : List Bytes) (p : Bytes) (err : GoError)
    (hls : ∀ l ∈ ls, LF ∉ l) (hp : LF ∉ p) :
    readEvents (joinLines ls ++ p) err = readEvents (joinLines ls) err ∧
    (∀ ls1 ls2 : List Bytes, ls = ls1 ++ ls2 → (∀ l ∈ ls2, l ≠ [] ∧ l ≠ [CR]) →
      ∃ items1 items2 : List Item,
        readEvents (joinLines ls1) err = .ok (items1 ++ [terminal err]) ∧
        readEvents (joinLines ls ++ p) err = .ok (items1 ++ items2 ++ [terminal err]) ∧
        ∀ i ∈ items2, i.isEvent = false) := by
  have hfull : ∀ (xs : List Bytes) (q : Bytes), (∀ l ∈ xs, LF ∉ l) → LF ∉ q →
      readEvents (joinLines xs ++ q) err = .ok ((runLines {} xs).2 ++ [terminal err]) := by
    intro xs q hxs hq
    unfold readEvents
    rw [readEventsFrom_lines xs hxs, readEventsFrom_tail _ q err hq]
  have hnil : ∀ xs : List Bytes, (∀ l ∈ xs, LF ∉ l) →
      readEvents (joinLines xs) err = .ok ((runLines {} xs).2 ++ [terminal err]) := by
    intro xs hxs
    have h := hfull xs [] hxs (by simp)
    rwa [List.append_nil] at h
  refine ⟨by rw [hfull ls p hls hp, hnil ls hls], ?_⟩
  intro ls1 ls2 hsplit hnb
  subst hsplit
  have h1 : ∀ l ∈ ls1, LF ∉ l := fun l hl => hls l (by simp [hl])
  refine ⟨(runLines {} ls1).2, (runLines (runLines {} ls1).1 ls2).2, hnil ls1 h1, ?_,
    fun i hi => runLines_no_event ls2 hnb _ i hi⟩
  rw [hfull _ p hls hp, runLines_append]

/-- C16 at a frame whose blank line never comes: the id and the data are read,
the last line has no line feed, and only the stream-closed signal is sent. -/
theorem readEvents_unterminated_witness :
    (∀ l ∈ [ascii "id: 1", ascii "data: x"], LF ∉ l) ∧ LF ∉ ascii "data: y" ∧
    readEvents (joinLines [ascii "id: 1", ascii "data: x"] ++ ascii "data: y") .eof =
      readEvents (joinLines [ascii "id: 1", ascii "data: x"]) .eof ∧
    readEvents (ascii "id: 1\ndata: x\ndata: y") .eof = .ok [Item.close (-1)] :=
  ⟨by decide, by decide,
    (readEvents_unterminated [ascii "id: 1", ascii "data: x"] (ascii "data: y") .eof
      (by decide) (by decide)).1,
    rfl⟩

/-- C17. On a line that ends with `'\n'` every slice of the switch is in range:
where a prefix of length `k` matches, `k ≤ len(line) - 1`, so
`stripPrefix(line, k)` returns the bytes between the prefix and the line feed, and
`line[6:]`, `line[5:]` return the rest of the line; hence the switch never
panics on such a line, also when the line is the prefix alone, and `readEvents`
returns on every input. -/
theorem readEvents_slices_in_range (st : Pending) (l input : Bytes) (err : GoError) :
    (∀ (p : String) (k : Nat),
      (p, k) ∈ [("id: ", 4), ("id:", 3), (": ", 2), (":", 1), ("event: ", 7), ("event:", 6)] →
      hasPrefix (l ++ [LF]) p = true →
        (k : Int) ≤ ((l ++ [LF]).length : Int) - 1 ∧
        stripPrefix (l ++ [LF]) k = .ok (l.drop k)) ∧
    (∀ (p : String) (k : Nat), (p, k) ∈ [("data: ", 6), ("data:", 5)] →
      hasPrefix (l ++ [LF]) p = true →
        k ≤ (l ++ [LF]).length ∧ sliceFrom (l ++ [LF]) k = .ok (l.drop k ++ [LF])) ∧
    (∃ r, processLine st (l ++ [LF]) = .ok r) ∧
    processLine st (ascii "id:\n") = .ok ({ st with ev := { st.ev with ID := [] } }, []) ∧
    processLine st (ascii ":\n") = .ok ({ st with ev := { st.ev with Comment := [] } }, []) ∧
    processLine st (ascii "data:\n") = .ok ({ st with buf := st.buf ++ [LF] }, []) ∧
    (∃ items, readEvents input err = .ok items) := by
  have hk : ∀ (p : String) (k : Nat), LF ∉ ascii p → (ascii p).length = k →
      hasPrefix (l ++ [LF]) p = true → k ≤ l.length := by
    intro p k hp hlen h
    rw [hasPrefix_line l p hp] at h
    rw [← hlen]
    exact hasPrefix_length l p h
  refine ⟨?_, ?_, ⟨_, processLine_line st l⟩, ?_, ?_, ?_, ?_⟩
  · intro p k hmem h
    have hkl : k ≤ l.length := by
      simp only [List.mem_cons, Prod.mk.injEq, List.mem_singleton, List.not_mem_nil,
        or_false] at hmem
      rcases hmem with ⟨rfl, rfl⟩ | ⟨rfl, rfl⟩ | ⟨rfl, rfl⟩ | ⟨rfl, rfl⟩ | ⟨rfl, rfl⟩ | ⟨rfl, rfl⟩ <;>
        exact hk _ _ (by decide) (by rfl) h
    refine ⟨?_, stripPrefix_line l k hkl⟩
    simp only [List.length_append, List.length_singleton, Nat.cast_add, Nat.cast_one]
    omega
  · intro p k hmem h
    have hkl : k ≤ l.length := by
      simp only [List.mem_cons, Prod.mk.injEq, List.mem_singleton, List.not_mem_nil,
        or_false] at hmem
      rcases hmem with ⟨rfl, rfl⟩ | ⟨rfl, rfl⟩ <;> exact hk _ _ (by decide) (by rfl) h
    refine ⟨?_, sliceFrom_line l k hkl⟩
    simp only [List.length_append, List.length_singleton]
    omega
  · exact (processLine_line st (ascii "id:")).trans (by
      rw [show ascii "id:" = ascii "id:" ++ [] from rfl, stepLine_id st [] (by simp)])
  · exact (processLine_line st (ascii ":")).trans (by
      rw [show ascii ":" = ascii ":" ++ [] from rfl, stepLine_colon st [] (by simp)])
  · exact (processLine_line st (ascii "data:")).trans (by
      rw [show ascii "data:" = ascii "data:" ++ [] from rfl, stepLine_data st [] (by simp)]
      rfl)
  · obtain ⟨body, h⟩ := readEventsFrom_total {} input err
    exact ⟨_, h⟩

/-! ## The release and the end-of-session hook -/

/-- Once `shutdownOnce` has run, `closeResponseBody` does nothing and returns nil. -/
theorem closeResponseBody_of_shutdown (c : Client) (h : c.shutdownOnce = true) :
    closeResponseBody c = (.ok none, c) := by
  simp [closeResponseBody, h]

/-- The first `closeResponseBody` of a session, when no "error" handler fails on
a body-close error: the body is closed, the handlers are told of the error,
`done` is closed and the close error is returned. -/
theorem closeResponseBody_release (c : Client) (resp : Response)
    (hresp : c.resp = some resp) (honce : c.shutdownOnce = false) (hdone : c.doneClosed = false)
    (hok : resp.closeErr ≠ none → ∀ f ∈ (c.eventHandlers "error").getD [], f.throws = none) :
    closeResponseBody c = (.ok resp.closeErr,
      { c with
        doneClosed := true, shutdownOnce := true,
        trace := c.trace ++ Effect.bodyClose ::
          ((match resp.closeErr with
            | some e => ((c.eventHandlers "error").getD []).map fun f => Effect.call f [.goError e]
            | none => []) ++ [Effect.closeDone]) }) := by
  cases he : resp.closeErr with
  | none =>
    simp [closeResponseBody, honce, hresp, he, hdone, Client.log]
  | some e =>
    have hlog : ∀ f ∈ ((c.log .bodyClose).eventHandlers "error").getD [], f.throws = none :=
      hok (by simp [he])
    have hh := handleEvent_ok (c.log .bodyClose) "error" [.goError e] hlog
    unfold closeResponseBody
    simp only [honce, hresp, he, Bool.false_eq_true, if_false, hh]
    simp [Client.log, hdone, hresp]

/-- C14 fails on the code for a session whose body close returns an error and
whose first "error" handler throws: the function run by `shutdownOnce.Do` panics
in `handleEvent` with the handler's error, before `close(c.done)`; the guard is
spent, the close error is not returned, a handler registered after the throwing
one is not told, and no later call closes `done`. The same holds for every
session in which the first "error" handler throws. -/
theorem closeResponseBody_throwing_handler :
    (closeResponseBody failingClient).1 = .error (.throw (.other (ascii "boom"))) ∧
    (closeResponseBody failingClient).2.doneClosed = false ∧
    (closeResponseBody failingClient).2.shutdownOnce = true ∧
    (closeResponseBody failingClient).2.trace =
      [.bodyClose, .call throwingHandler [.goError (.other (ascii "close failed"))]] ∧
    closeResponseBody (closeResponseBody failingClient).2 =
      (.ok none, (closeResponseBody failingClient).2) ∧
    (closeResponseBody twoHandlerClient).2.trace =
      [.bodyClose, .call throwingHandler [.goError (.other (ascii "close failed"))]] ∧
    (∀ (c : Client) (resp : Response) (e x : GoError) (h : Callable) (hs : List Callable),
      c.shutdownOnce = false → c.resp = some resp → resp.closeErr = some e →
      c.eventHandlers "error" = some (h :: hs) → h.throws = some x →
        (closeResponseBody c).1 = .error (.throw x) ∧
        (closeResponseBody c).2.doneClosed = c.doneClosed ∧
        (closeResponseBody c).2.shutdownOnce = true ∧
        (closeResponseBody c).2.trace = c.trace ++ [.bodyClose, .call h [.goError e]]) := by
  refine ⟨rfl, rfl, rfl, rfl, closeResponseBody_of_shutdown _ rfl, rfl, ?_⟩
  intro c resp e x h hs honce hresp he hh hx
  simp [closeResponseBody, honce, hresp, he, handleEvent, Client.log, hh, callHandlers, hx]

/-- C15 fails on the code. When `http.NewRequestWithContext` fails, `open`
returns a nil hook with the error, and the deferred `connEndHook()` of `Open`
calls the nil function when `Open` is about to return: `Open` panics, whatever
the throw option, the setup callback and the error are. -/
theorem Open_bad_request_panics (st : State) (url : String) (setupFn : SetupFn) (ctxDone : Bool)
    (err : GoError) (schedule : List Signal) :
    (miOpen ctxDone url (.badRequest err)).2.1 = none ∧
    (miOpen ctxDone url (.badRequest err)).2.2 = some err ∧
    (Open (some st) url (.ok setupFn) ctxDone (.badRequest err) schedule).1 =
      OpenReturn.panic Panic.nilDereference := by
  refine ⟨rfl, rfl, ?_⟩
  by_cases hmsg : err.Error = [] <;> cases hs : st.Throw <;>
    simp [Open, miOpen, openBody, handleEvent, wrapHTTPResponse, hs, hmsg]

/-! ## Cancellation -/

/-- C12 fails on the code. The branch of `<-ctx.Done()` is commented "client
events will not be forwarded to the VU", yet it calls the shared
`closeResponseBody`, which reports a failing body close to the "error"
handlers: in a running session with one "error" handler whose body close
returns an error, the step taken for the cancellation closes the body, calls
that handler with the close error and then closes `done`. -/
theorem controlLoop_ctxDone_calls_error_handler :
    (reportingClient.eventHandlers "error").getD [] = [{ id := 7 }] ∧
    reportingClient.resp = some { closeErr := some (.other (ascii "close failed")) } ∧
    (controlLoop [.ctxDone] reportingClient).2.trace =
      [.bodyClose, .call { id := 7 } [.goError (.other (ascii "close failed"))], .closeDone] ∧
    ¬ (∀ (f : Callable) (args : List Value),
        Effect.call f args ∉ (controlLoop [.ctxDone] reportingClient).2.trace) := by
  have h : (controlLoop [.ctxDone] reportingClient).2.trace =
      [.bodyClose, .call { id := 7 } [.goError (.other (ascii "close failed"))], .closeDone] :=
    rfl
  refine ⟨rfl, rfl, h, fun hn => ?_⟩
  exact hn { id := 7 } [.goError (.other (ascii "close failed"))] (by rw [h]; simp)

/-! ## Event telemetry -/

/-- What `handleEvent` adds to the trace: calls of the first handlers of the
event, up to the first one that fails, each with the arguments given. -/
theorem callHandlers_trace (args : List Value) (hs : List Callable) :
    ∀ c : Client, ∃ called : List Callable, called <+: hs ∧
      (callHandlers args hs c).2.trace = c.trace ++ called.map fun f => Effect.call f args := by
  induction hs with
  | nil => intro c; exact ⟨[], List.prefix_refl _, by simp [callHandlers]⟩
  | cons h hs ih =>
    intro c
    cases ht : h.throws with
    | some err =>
      refine ⟨[h], ?_, by simp [callHandlers, ht, Client.log]⟩
      exact ⟨hs, rfl⟩
    | none =>
      obtain ⟨called, hp, he⟩ := ih (c.log (.call h args))
      simp only [Client.log] at he
      refine ⟨h :: called, ?_, by simp [callHandlers, ht, he, Client.log]⟩
      obtain ⟨t, rfl⟩ := hp
      exact ⟨t, rfl⟩

theorem handleEvent_trace (c : Client) (event : String) (args : List Value) :
    ∃ called : List Callable, called <+: (c.eventHandlers event).getD [] ∧
      (handleEvent c event args).2.trace = c.trace ++ called.map fun f => Effect.call f args := by
  unfold handleEvent
  cases h : c.eventHandlers event with
  | none => exact ⟨[], List.prefix_refl _, by simp⟩
  | some l => exact callHandlers_trace args l c

theorem callHandlers_ctxDone (args : List Value) (hs : List Callable) :
    ∀ c : Client, (callHandlers args hs c).2.ctxDone = c.ctxDone := by
  induction hs with
  | nil => intro c; rfl
  | cons h hs ih =>
    intro c
    cases ht : h.throws with
    | some err => simp [callHandlers, ht, Client.log]
    | none => simp [callHandlers, ht, ih, Client.log]

theorem handleEvent_ctxDone (c : Client) (event : String) (args : List Value) :
    (handleEvent c event args).2.ctxDone = c.ctxDone := by
  unfold handleEvent
  cases h : c.eventHandlers event with
  | none => rfl
  | some l => exact callHandlers_ctxDone args l c

theorem count_push_calls (s : List Sample) (args : List Value) (l : List Callable) :
    List.count (Effect.push s) (l.map fun f => Effect.call f args) = 0 := by
  rw [List.count_eq_zero]
  intro h
  obtain ⟨f, _, hf⟩ := List.mem_map.1 h
  exact Effect.noConfusion hf

theorem handleEvent_count (c : Client) (event : String) (args : List Value) (s : List Sample) :
    List.count (Effect.push s) (handleEvent c event args).2.trace =
      List.count (Effect.push s) c.trace := by
  obtain ⟨called, _, h⟩ := handleEvent_trace c event args
  rw [h, List.count_append, count_push_calls, Nat.add_zero]

/-- The release pushes no sample and leaves the context as it is. -/
theorem closeResponseBody_count (c : Client) (s : List Sample) :
    List.count (Effect.push s) (closeResponseBody c).2.trace =
      List.count (Effect.push s) c.trace ∧
    (closeResponseBody c).2.ctxDone = c.ctxDone := by
  unfold closeResponseBody
  cases h1 : c.shutdownOnce
  · cases h2 : c.resp with
    | none => simp
    | some resp =>
      cases h3 : resp.closeErr with
      | none =>
        cases h4 : c.doneClosed <;> simp [h3, h4, Client.log, List.count_append]
      | some e =>
        have hc := handleEvent_count (c.log .bodyClose) "error" [.goError e] s
        have hd := handleEvent_ctxDone (c.log .bodyClose) "error" [.goError e]
        have hl : List.count (Effect.push s) (c.log .bodyClose).trace =
            List.count (Effect.push s) c.trace := by
          simp [Client.log, List.count_append]
        rw [hl] at hc
        have hd2 : (c.log .bodyClose).ctxDone = c.ctxDone := rfl
        rw [hd2] at hd
        simp only [h3, Bool.false_eq_true, if_false]
        cases hr : handleEvent (c.log .bodyClose) "error" [.goError e] with
        | mk r c2 =>
          rw [hr] at hc hd
          simp only at hc hd
          cases r with
          | error p => exact ⟨hc, hd⟩
          | ok u =>
            cases h4 : c2.doneClosed
            · simp [h4, Client.log, List.count_append, hc, hd]
            · simp [h4, hc, hd]
  · simp

theorem pushIfNotDone_count (c : Client) :
    List.count (Effect.push eventSample) (pushIfNotDone c eventSample).trace =
      List.count (Effect.push eventSample) c.trace + (if c.ctxDone then 0 else 1) ∧
    (pushIfNotDone c eventSample).ctxDone = c.ctxDone := by
  unfold pushIfNotDone
  cases h : c.ctxDone <;> simp [h, Client.log, List.count_append]

/-- The samples of a run of the control loop: one for each event received while
the caller's context was not done. -/
theorem controlLoop_count (schedule : List Signal) :
    ∀ c : Client,
      List.count (Effect.push eventSample) (controlLoop schedule c).2.trace =
        List.count (Effect.push eventSample) c.trace +
          ((eventsReceived schedule c).filter fun x => !x.2).length := by
  induction schedule with
  | nil => intro c; simp [controlLoop, eventsReceived]
  | cons s rest ih =>
    intro c
    cases s with
    | cancel => simp only [controlLoop, eventsReceived]; rw [ih]
    | event ev =>
      have hp := (pushIfNotDone_count c).1
      have hc := handleEvent_count (pushIfNotDone c eventSample) "event" [.event ev] eventSample
      rw [hp] at hc
      simp only [controlLoop, eventsReceived]
      cases hr : handleEvent (pushIfNotDone c eventSample) "event" [.event ev] with
      | mk r c1 =>
        rw [hr] at hc
        simp only at hc
        cases r with
        | error p => cases hd : c.ctxDone <;> simp [hc, hd]
        | ok u =>
          simp only [ih c1, hc]
          cases hd : c.ctxDone <;> simp [hd]
          omega
    | readErr err =>
      have hc := handleEvent_count c "error" [.goError err] eventSample
      simp only [controlLoop, eventsReceived]
      cases hr : handleEvent c "error" [.goError err] with
      | mk r c1 =>
        rw [hr] at hc
        simp only at hc
        cases r with
        | error p => simp [hc]
        | ok u => simp only [ih c1, hc]
    | ctxDone =>
      have hc := (closeResponseBody_count { c with ctxDone := true } eventSample).1
      simp only [controlLoop, eventsReceived]
      cases hr : closeResponseBody { c with ctxDone := true } with
      | mk r c1 =>
        rw [hr] at hc
        simp only at hc
        cases r with
        | error p => simp [hc]
        | ok u => simp only [ih c1, hc]
    | readClose =>
      have hc := (closeResponseBody_count c eventSample).1
      simp only [controlLoop, eventsReceived]
      cases hr : closeResponseBody c with
      | mk r c1 =>
        rw [hr] at hc
        simp only at hc
        cases r with
        | error p => simp [hc]
        | ok u => simp only [ih c1, hc]
    | done =>
      simp only [controlLoop, eventsReceived]
      cases hd : c.doneClosed
      · simp only [Bool.false_eq_true, if_false]; exact ih c
      · simp only [if_true]
        cases wrapHTTPResponse c [] <;> simp

/-- While the caller's context is not done, every event is received with the
context not done. -/
theorem eventsReceived_live (schedule : List Signal) :
    ∀ c : Client, c.ctxDone = false → Signal.cancel ∉ schedule → Signal.ctxDone ∉ schedule →
      ∀ x ∈ eventsReceived schedule c, x.2 = false := by
  induction schedule with
  | nil => intro c _ _ _ x hx; simp [eventsReceived] at hx
  | cons s rest ih =>
    intro c hc h1 h2 x hx
    have r1 : Signal.cancel ∉ rest := fun h => h1 (by simp [h])
    have r2 : Signal.ctxDone ∉ rest := fun h => h2 (by simp [h])
    cases s with
    | cancel => exact absurd (by simp) h1
    | ctxDone => exact absurd (by simp) h2
    | event ev =>
      have hd := handleEvent_ctxDone (pushIfNotDone c eventSample) "event" [.event ev]
      rw [(pushIfNotDone_count c).2, hc] at hd
      simp only [eventsReceived, List.mem_cons] at hx
      rcases hx with hx | hx
      · rw [hx]; exact hc
      · cases hr : handleEvent (pushIfNotDone c eventSample) "event" [.event ev] with
        | mk r c1 =>
          rw [hr] at hx hd
          cases r with
          | error p => simp at hx
          | ok u => exact ih c1 hd r1 r2 x hx
    | readErr err =>
      have hd := handleEvent_ctxDone c "error" [.goError err]
      rw [hc] at hd
      simp only [eventsReceived] at hx
      cases hr : handleEvent c "error" [.goError err] with
      | mk r c1 =>
        rw [hr] at hx hd
        cases r with
        | error p => simp at hx
        | ok u => exact ih c1 hd r1 r2 x hx
    | readClose =>
      have hd := (closeResponseBody_count c eventSample).2
      rw [hc] at hd
      simp only [eventsReceived] at hx
      cases hr : closeResponseBody c with
      | mk r c1 =>
        rw [hr] at hx hd
        cases r with
        | error p => simp at hx
        | ok u => exact ih c1 hd r1 r2 x hx
    | done =>
      simp only [eventsReceived] at hx
      cases hd : c.doneClosed
      · rw [hd] at hx
        exact ih c hc r1 r2 x (by simpa using hx)
      · rw [hd] at hx
        simp at hx

/-- C13 fails on the code: an event received after the caller's context is
cancelled is passed to the "event" handler, and `metrics.PushIfNotDone` drops its
sample. In this run one event is delivered and no sample is emitted. -/
theorem controlLoop_event_after_cancel :
    (controlLoop [.cancel, .event {}, .ctxDone, .done] listeningClient).1 =
      OpenReturn.ret (some { Status := 200 }) none ∧
    (controlLoop [.cancel, .event {}, .ctxDone, .done] listeningClient).2.trace =
      [.call { id := 4 } [.event {}], .bodyClose, .closeDone] ∧
    eventsReceived [.cancel, .event {}, .ctxDone, .done] listeningClient = [({}, true)] ∧
    ¬ (∀ (schedule : List Signal) (c : Client),
        List.count (Effect.push eventSample) (controlLoop schedule c).2.trace =
          List.count (Effect.push eventSample) c.trace + (eventsReceived schedule c).length) := by
  refine ⟨rfl, rfl, rfl, fun h => ?_⟩
  have h1 := h [.cancel, .event {}, .ctxDone, .done] listeningClient
  have h2 : (controlLoop [.cancel, .event {}, .ctxDone, .done] listeningClient).2.trace =
      [.call { id := 4 } [.event {}], .bodyClose, .closeDone] := rfl
  have h3 : eventsReceived [.cancel, .event {}, .ctxDone, .done] listeningClient =
      [({}, true)] := rfl
  have h4 : listeningClient.trace = [] := rfl
  rw [h2, h3, h4] at h1
  exact absurd h1 (by decide)

/-- C13 as amended. In every run of the control loop the number of
event-received samples emitted is the number of events received while the
caller's context was not done, so it is the number of events received when the
context is not done during the run; and for each event received while the
context is not done, the sample is emitted first and then "event" handlers are
called with the event, in the order of registration up to the first that fails;
for an event received once the context is done the handlers are called and no
sample is emitted. -/
theorem controlLoop_event_samples (schedule : List Signal) (c : Client) (ev : Event) :
    List.count (Effect.push eventSample) (controlLoop schedule c).2.trace =
      List.count (Effect.push eventSample) c.trace +
        ((eventsReceived schedule c).filter fun x => !x.2).length ∧
    (c.ctxDone = false → Signal.cancel ∉ schedule → Signal.ctxDone ∉ schedule →
      List.count (Effect.push eventSample) (controlLoop schedule c).2.trace =
        List.count (Effect.push eventSample) c.trace + (eventsReceived schedule c).length) ∧
    (c.ctxDone = false →
      ∃ called : List Callable, called <+: (c.eventHandlers "event").getD [] ∧
        (controlLoop [.event ev] c).2.trace =
          c.trace ++ Effect.push eventSample :: called.map fun f => Effect.call f [.event ev]) ∧
    (c.ctxDone = true →
      ∃ called : List Callable, called <+: (c.eventHandlers "event").getD [] ∧
        (controlLoop [.event ev] c).2.trace =
          c.trace ++ called.map fun f => Effect.call f [.event ev]) := by
  have hstep : (controlLoop [.event ev] c).2 =
      (handleEvent (pushIfNotDone c eventSample) "event" [.event ev]).2 := by
    simp only [controlLoop]
    cases hr : handleEvent (pushIfNotDone c eventSample) "event" [.event ev] with
    | mk r c1 => cases r <;> rfl
  refine ⟨controlLoop_count schedule c, ?_, ?_, ?_⟩
  · intro hc h1 h2
    rw [controlLoop_count schedule c]
    congr 1
    rw [List.filter_eq_self.2]
    intro x hx
    simp [eventsReceived_live schedule c hc h1 h2 x hx]
  · intro hc
    obtain ⟨called, hp, ht⟩ :=
      handleEvent_trace (pushIfNotDone c eventSample) "event" [.event ev]
    refine ⟨called, by simpa [pushIfNotDone, hc, Client.log] using hp, ?_⟩
    rw [hstep, ht]
    simp [pushIfNotDone, hc, Client.log]
  · intro hc
    obtain ⟨called, hp, ht⟩ :=
      handleEvent_trace (pushIfNotDone c eventSample) "event" [.event ev]
    refine ⟨called, by simpa [pushIfNotDone, hc] using hp, ?_⟩
    rw [hstep, ht]
    simp [pushIfNotDone, hc]

/-- C13 as amended, at the run of the test: two events are received with the
context not done, the stream closes, and two samples are emitted, each before the
call of the handler. -/
theorem controlLoop_event_samples_witness :
    listeningClient.ctxDone = false ∧
    Signal.cancel ∉ [Signal.event {}, .event { Name := ascii "EFGH" }, .readClose, .done] ∧
    Signal.ctxDone ∉ [Signal.event {}, .event { Name := ascii "EFGH" }, .readClose, .done] ∧
    List.count (Effect.push eventSample)
      (controlLoop [.event {}, .event { Name := ascii "EFGH" }, .readClose, .done]
        listeningClient).2.trace = 2 ∧
    (controlLoop [.event {}, .event { Name := ascii "EFGH" }, .readClose, .done]
        listeningClient).2.trace =
      [.push eventSample, .call { id := 4 } [.event {}],
        .push eventSample, .call { id := 4 } [.event { Name := ascii "EFGH" }],
        .bodyClose, .closeDone] := by
  refine ⟨rfl, by decide, by decide, ?_, rfl⟩
  rw [(controlLoop_event_samples [.event {}, .event { Name := ascii "EFGH" }, .readClose, .done]
    listeningClient {}).2.1 rfl (by decide) (by decide)]
  rfl

/-! ## Open when the setup callback fails -/

/-- C11 fails on the code when the body close returns an error and an "error"
handler registered by the setup callback throws: the release that `Open` runs
after the failed callback panics in `handleEvent`, so `Open` panics with the
handler's error instead of returning the callback's error, and `done` is not
closed; this under either throw option. -/
theorem Open_setup_failure_throwing_handler :
    (Open (some { Throw := false }) "u" (.ok failingSetup) false
        (.roundTrip (some { closeErr := some (.other (ascii "close failed")) }) none) []).1 =
      OpenReturn.panic (.throw (.other (ascii "boom"))) ∧
    (Open (some { Throw := true }) "u" (.ok failingSetup) false
        (.roundTrip (some { closeErr := some (.other (ascii "close failed")) }) none) []).1 =
      OpenReturn.panic (.throw (.other (ascii "boom"))) ∧
    (Open (some { Throw := false }) "u" (.ok failingSetup) false
        (.roundTrip (some { closeErr := some (.other (ascii "close failed")) }) none)
        []).2.map Client.doneClosed = some false ∧
    (Open (some { Throw := false }) "u" (.ok failingSetup) false
        (.roundTrip (some { closeErr := some (.other (ascii "close failed")) }) none)
        []).2.map Client.trace =
      some [.push connSamples, .setup, .bodyClose,
        .call throwingHandler [.goError (.other (ascii "close failed"))], .push endSamples] :=
  ⟨rfl, rfl, rfl, rfl⟩

theorem count_map_call (e : Effect) (args : List Value) (l : List Callable)
    (he : ∀ f : Callable, e ≠ Effect.call f args) :
    List.count e (l.map fun f => Effect.call f args) = 0 := by
  rw [List.count_eq_zero]
  intro h
  obtain ⟨f, _, hf⟩ := List.mem_map.1 h
  exact he f hf.symm

theorem On_inv (resp : Response) (c : Client) (event : String) (handler : Value)
    (hinv : SetupInv resp c)
    (hh : resp.closeErr ≠ none → ∀ h : Callable,
      event = "error" → handler = .function h → h.throws = none) :
    SetupInv resp (On c event handler) := by
  obtain ⟨i1, i2, i3, i4, i5, i6, i7⟩ := hinv
  cases handler with
  | function h =>
    refine ⟨i1, i2, i3, i4, i5, i6, ?_⟩
    intro hne f hf
    by_cases he : event = "error"
    · subst he
      simp only [On, assertFunction, if_true, Option.getD_some, List.mem_append,
        List.mem_singleton] at hf
      rcases hf with hf | hf
      · exact i7 hne f hf
      · rw [hf]; exact hh hne h rfl rfl
    · have hne2 : ¬ ("error" = event) := fun e => he e.symm
      simp only [On, assertFunction, hne2, if_false] at hf
      exact i7 hne f hf
  | undefined => exact ⟨i1, i2, i3, i4, i5, i6, i7⟩
  | goError e => exact ⟨i1, i2, i3, i4, i5, i6, i7⟩
  | event e => exact ⟨i1, i2, i3, i4, i5, i6, i7⟩
  | client => exact ⟨i1, i2, i3, i4, i5, i6, i7⟩
  | other n => exact ⟨i1, i2, i3, i4, i5, i6, i7⟩

theorem closeResponseBody_inv (resp : Response) (c : Client) (hinv : SetupInv resp c) :
    ∃ (r : Option GoError) (c1 : Client),
      closeResponseBody c = (.ok r, c1) ∧ SetupInv resp c1 ∧ c1.shutdownOnce = true ∧
      c1.ctxDone = c.ctxDone := by
  obtain ⟨i1, i2, i3, i4, i5, i6, i7⟩ := hinv
  cases honce : c.shutdownOnce
  · rw [honce] at i2 i3 i4
    refine ⟨_, _, closeResponseBody_release c resp i1 honce i2 i7, ?_, rfl, rfl⟩
    refine ⟨i1, rfl, ?_, ?_, ?_, ?_, i7⟩
    · cases he : resp.closeErr <;>
        simp [List.count_append, List.count_cons, i3, count_map_call]
    · cases he : resp.closeErr <;>
        simp [List.count_append, List.count_cons, i4, count_map_call]
    · cases he : resp.closeErr <;> simp [i5]
    · intro f
      cases he : resp.closeErr <;> simp [i6]
  · exact ⟨_, _, closeResponseBody_of_shutdown c honce, ⟨i1, i2, i3, i4, i5, i6, i7⟩, honce, rfl⟩

theorem log_inv (resp : Response) (c : Client) (e : Effect) (hinv : SetupInv resp c)
    (h1 : e ≠ .bodyClose) (h2 : e ≠ .closeDone) (h3 : e ≠ .goReadEvents)
    (h4 : ∀ f : Callable, e ≠ .call f []) : SetupInv resp (c.log e) := by
  obtain ⟨i1, i2, i3, i4, i5, i6, i7⟩ := hinv
  refine ⟨i1, i2, ?_, ?_, ?_, ?_, i7⟩
  · simp [Client.log, List.count_append, List.count_cons, i3, h1.symm]
  · simp [Client.log, List.count_append, List.count_cons, i4, h2.symm]
  · simp [Client.log, i5, h3.symm]
  · intro f
    simp [Client.log, i6, (h4 f).symm]

theorem Close_inv (resp : Response) (c : Client) (hinv : SetupInv resp c) :
    ∃ (r : Option GoError) (c1 : Client), Close c = (.ok r, c1) ∧ SetupInv resp c1 := by
  obtain ⟨r, c1, h, hi, _, _⟩ := closeResponseBody_inv resp c hinv
  refine ⟨r, c1.log .cancelRequest, by simp [Close, h], ?_⟩
  exact log_inv resp c1 _ hi (by simp) (by simp) (by simp) (by simp)

theorem runCalls_inv (resp : Response) (calls : List ClientCall) :
    ∀ c : Client, SetupInv resp c →
      (resp.closeErr ≠ none → ∀ h : Callable,
        ClientCall.on "error" (.function h) ∈ calls → h.throws = none) →
      ∃ c1 : Client, runCalls calls c = (.ok (), c1) ∧ SetupInv resp c1 ∧
        c1.ctxDone = c.ctxDone := by
  induction calls with
  | nil => intro c hinv _; exact ⟨c, rfl, hinv, rfl⟩
  | cons x xs ih =>
    intro c hinv hset
    have hset2 : resp.closeErr ≠ none → ∀ h : Callable,
        ClientCall.on "error" (.function h) ∈ xs → h.throws = none :=
      fun hne h hm => hset hne h (by simp [hm])
    rcases x with ⟨event, handler⟩ | _
    · have hon := On_inv resp c event handler hinv (by
        intro hne h he hh
        subst he; subst hh
        exact hset hne h (by simp))
      obtain ⟨c1, h1, h2, h3⟩ := ih (On c event handler) hon hset2
      refine ⟨c1, by simp [runCalls, h1], h2, ?_⟩
      rw [h3]
      unfold On
      cases assertFunction handler <;> rfl
    · obtain ⟨r, c1, hc, hi⟩ := Close_inv resp c hinv
      have hctx : c1.ctxDone = c.ctxDone := by
        have := congrArg (fun p => p.2.ctxDone) hc
        simp only at this
        rw [← this]
        obtain ⟨r2, c2, h2, _, _, h5⟩ := closeResponseBody_inv resp c hinv
        simp [Close, h2, Client.log, h5]
      obtain ⟨c2, h1, h2, h3⟩ := ih c1 hi hset2
      exact ⟨c2, by simp [runCalls, hc, h1], h2, by rw [h3, hctx]⟩

/-- When the setup callback fails after a successful connect and no "error"
handler it registered fails on a body-close error, `Open` closes the body once
and `done` once, returns the callback's error and no response under either
throw option, calls no handler without argument (no "open" event), and does not
start the parser, whatever the schedule. -/
theorem Open_setup_failure (st : State) (url : String) (setupFn : SetupFn) (ctxDone : Bool)
    (resp : Response) (e : GoError) (schedule : List Signal)
    (hfail : setupFn.throws = some e)
    (hset : resp.closeErr ≠ none → ∀ h : Callable,
      ClientCall.on "error" (.function h) ∈ setupFn.calls → h.throws = none) :
    ∃ c : Client,
      Open (some st) url (.ok setupFn) ctxDone (.roundTrip (some resp) none) schedule =
        (OpenReturn.ret none (some e), some c) ∧
      c.doneClosed = true ∧
      List.count Effect.bodyClose c.trace = 1 ∧ List.count Effect.closeDone c.trace = 1 ∧
      Effect.goReadEvents ∉ c.trace ∧ (∀ f : Callable, Effect.call f [] ∉ c.trace) := by
  have h0 : SetupInv resp (pushIfNotDone { url := url, ctxDone := ctxDone, resp := some resp }
      connSamples) := by
    cases ctxDone <;> simp [SetupInv, pushIfNotDone, Client.log, connSamples]
  have h1 := log_inv resp _ Effect.setup h0 (by simp) (by simp) (by simp) (by simp)
  obtain ⟨c1, hr, hi, _⟩ := runCalls_inv resp setupFn.calls _ h1 hset
  obtain ⟨r, c2, hc, hi2, honce, _⟩ := closeResponseBody_inv resp c1 hi
  obtain ⟨i1, i2, i3, i4, i5, i6, i7⟩ := hi2
  rw [honce] at i2 i3 i4
  refine ⟨pushIfNotDone c2 endSamples, ?_, ?_, ?_, ?_, ?_, ?_⟩
  · simp [Open, miOpen, openBody, runSetup, hr, hfail, hc]
  · unfold pushIfNotDone; cases c2.ctxDone <;> simp [Client.log, i2]
  · unfold pushIfNotDone
    cases c2.ctxDone <;> simp [Client.log, i3, List.count_append, List.count_cons]
  · unfold pushIfNotDone
    cases c2.ctxDone <;> simp [Client.log, i4, List.count_append, List.count_cons]
  · unfold pushIfNotDone; cases c2.ctxDone <;> simp [Client.log, i5]
  · intro f
    unfold pushIfNotDone; cases c2.ctxDone <;> simp [Client.log, i6]

end SSE
